import Mathlib

/-!
# Verification of the Instakand scraping core

A shallow embedding, in Lean 4, of the core data structures and algorithms of
the Instakand repository (NestJS/TypeScript): the count-string parsers, the
hashtag extraction engine and its fallback chain, the proxy pool, the global
search accumulator, the rate limiter cooldown logic, the job lifecycle of the
scraper service operations, and the browser context registry.

Conventions used throughout:
* JavaScript numbers are modelled as exact rationals (`ℚ`) where fractional
  values arise; the special value `NaN` is modelled by `Option.none`.
* Timestamps (`Date.now()`) are modelled as integer milliseconds.
* Browser-driver inputs (captured JSON bodies, regex matches over page HTML)
  are modelled as abstract environments: a captured GraphQL edge is
  represented by its parse result (`Option PostData`), and the matches of a
  shortcode pattern over an HTML document are represented by the list of
  captured strings.  The browser driver itself is outside the verified core.
* Fallible external actions (navigation, fetches) are driven by explicit
  oracles so that theorems quantify over every success/failure interleaving.
-/

set_option autoImplicit false

namespace Instakand

/-! ## Shared data model

`PostData` keeps the fields that the verified properties depend on: the
identifying key (`shortcode`, `id`) and the text fields consulted by the
search keyword filter.  The remaining media fields (urls, counts, timestamps)
do not influence any of the verified control flow and are omitted. -/

structure PostData where
  id : String
  shortcode : String
  caption : String
  hashtags : List String
  deriving DecidableEq, Repr

/-! ## Count-string parsers

`ProfileStrategy.parseCount` (profile.strategy.ts, lines 390-408) and
`ReelStrategy.parseCount` (reel.strategy.ts, lines 198-214) convert human
readable counts such as "1.8M" or "12,345" to numbers.  Both first strip
commas, trim and uppercase; the profile version then matches the anchored
pattern `^([\d.]+)\s*([KMB])?$` while the reel version scans for the first
match of the unanchored pattern `([\d.]+)([KMB])?`. -/

/-- The character class `[\d.]` of the count regexes. -/
def isNumChar (c : Char) : Bool := c.isDigit || c == '.'

/-- The character class `[KMB]` of the count regexes. -/
def isKMB (c : Char) : Bool := c == 'K' || c == 'M' || c == 'B'

/-- JavaScript `String.prototype.trim` on a character list. -/
def jsTrim (cs : List Char) : List Char :=
  ((cs.dropWhile Char.isWhitespace).reverse.dropWhile Char.isWhitespace).reverse

/-- `countStr.replace(/,/g, '').trim().toUpperCase()`, the cleaning step
shared by both parsers (comma removal, trim, ASCII uppercasing). -/
def cleanCount (s : String) : List Char :=
  (jsTrim (s.toList.filter (fun c => c != ','))).map Char.toUpper

/-- Digit list to natural number (the numeric part of a count). -/
def digitsToNat (cs : List Char) : Nat :=
  cs.foldl (fun n c => 10 * n + (c.toNat - 48)) 0

/-- A decoded decimal literal `ip.fp` (with `fpLen` fraction digits), the
result of a successful `parseFloat`. -/
structure FloatVal where
  ip : Nat
  fp : Nat
  fpLen : Nat
  deriving DecidableEq, Repr

/-- The rational value of a decoded decimal literal. -/
def FloatVal.toRat (v : FloatVal) : ℚ :=
  (v.ip : ℚ) + (v.fp : ℚ) / ((10 : ℚ) ^ v.fpLen)

/-- JavaScript `parseFloat` restricted to strings drawn from `[\d.]+` (the
only strings the parsers apply it to): a run of integer digits, an optional
dot, a run of fraction digits; scanning stops at any further character.
`none` models the result `NaN`, which arises exactly when no digit is
consumed before scanning stops (e.g. on "." or ".."). -/
def jsParseFloatNum (cs : List Char) : Option FloatVal :=
  let intPart := cs.takeWhile Char.isDigit
  let rest := cs.dropWhile Char.isDigit
  match rest with
  | [] => if intPart.isEmpty then none else some ⟨digitsToNat intPart, 0, 0⟩
  | c :: rest2 =>
    if c == '.' then
      let frac := rest2.takeWhile Char.isDigit
      if intPart.isEmpty && frac.isEmpty then none
      else some ⟨digitsToNat intPart, digitsToNat frac, frac.length⟩
    else
      if intPart.isEmpty then none else some ⟨digitsToNat intPart, 0, 0⟩

/-- JavaScript `Math.round` on a (non-`NaN`) number: round half up. -/
def jsRound (q : ℚ) : ℤ := Int.floor (q + 1 / 2)

/-- The suffix scaling of both parsers: `K` ×1e3, `M` ×1e6, `B` ×1e9. -/
def applySuffix (q : ℚ) : Option Char → ℚ
  | some 'K' => q * 1000
  | some 'M' => q * 1000000
  | some 'B' => q * 1000000000
  | _ => q

/-- Match of the anchored pattern `^([\d.]+)\s*([KMB])?$` against a cleaned
count string: the maximal `[\d.]+` run, then whitespace, then an optional
suffix letter, then the end of the string.  Because the three character
classes are disjoint, the greedy decomposition is the only possible one. -/
def matchCountAnchored (cs : List Char) : Option (List Char × Option Char) :=
  let num := cs.takeWhile isNumChar
  let rest := (cs.dropWhile isNumChar).dropWhile Char.isWhitespace
  if num.isEmpty then none
  else
    match rest with
    | [] => some (num, none)
    | [c] => if isKMB c then some (num, some c) else none
    | _ => none

/-- Leftmost match of the unanchored pattern `([\d.]+)([KMB])?`: scan for the
first `[\d.]` character, capture the maximal run from there, and capture an
immediately following suffix letter if present. -/
def matchCountSearch : List Char → Option (List Char × Option Char)
  | [] => none
  | c :: rest =>
    if isNumChar c then
      let num := (c :: rest).takeWhile isNumChar
      let after := (c :: rest).dropWhile isNumChar
      match after with
      | [] => some (num, none)
      | k :: _ => if isKMB k then some (num, some k) else some (num, none)
    else matchCountSearch rest

/-- Embeds `ProfileStrategy.parseCount` (profile.strategy.ts, lines 390-408).
The result `none` models `NaN`. -/
def profileParseCount (countStr : String) : Option ℤ :=
  if countStr = "" then some 0
  else
    match matchCountAnchored (cleanCount countStr) with
    | none => some 0
    | some (num, suffix) =>
      match jsParseFloatNum num with
      | none => none
      | some v => some (jsRound (applySuffix v.toRat suffix))

/-- Embeds `ReelStrategy.parseCount` (reel.strategy.ts, lines 198-214).
The result `none` models `NaN`. -/
def reelParseCount (countStr : String) : Option ℤ :=
  if countStr = "" then some 0
  else
    match matchCountSearch (cleanCount countStr) with
    | none => some 0
    | some (num, suffix) =>
      match jsParseFloatNum num with
      | none => none
      | some v => some (jsRound (applySuffix v.toRat suffix))


/-! ## Hashtag extraction engine (hashtag.strategy.ts)

The engine runs four strategies in order (`HashtagStrategy.scrapeHashtag`,
lines 374-418).  Browser inputs are abstracted as follows: a captured GraphQL
response is represented by the concatenated edge list found under its hashtag
payload (`edge_hashtag_to_media.edges ++ edge_hashtag_to_top_posts.edges ++
edges`), or `none` when the JSON carries no hashtag payload; a GraphQL edge is
represented by its `parseGraphQLPost` result (`none` when parsing threw); an
HTML document is represented, per shortcode pattern, by the list of captured
match strings. -/

/-- A captured GraphQL response: `none` when no hashtag payload was found,
otherwise its concatenated edge list, each edge given by its parse result. -/
abbrev CapturedResponse := Option (List (Option PostData))

/-- The inner edge loop shared by `processCapturedResponses` (lines 967-973)
and the pagination loop (lines 553-561): stop at `limit`, skip unparsable
edges and shortcodes already present, append the rest. -/
def processEdges (limit : Nat) : List (Option PostData) → List PostData → List PostData
  | [], posts => posts
  | e :: rest, posts =>
    if limit ≤ posts.length then posts
    else
      match e with
      | none => processEdges limit rest posts
      | some p =>
        if posts.any (fun q => q.shortcode == p.shortcode) then
          processEdges limit rest posts
        else
          processEdges limit rest (posts ++ [p])

/-- Embeds `HashtagStrategy.processCapturedResponses` (lines 952-976). -/
def processCapturedResponses (limit : Nat) :
    List CapturedResponse → List PostData → List PostData
  | [], posts => posts
  | r :: rest, posts =>
    if limit ≤ posts.length then posts
    else
      match r with
      | none => processCapturedResponses limit rest posts
      | some edges => processCapturedResponses limit rest (processEdges limit edges posts)

/-- The `PostData` record built by `extractFromHtml` for a bare shortcode
(lines 997-1014): id and shortcode are the match, text fields are empty. -/
def extractHtmlPost (sc : String) : PostData :=
  { id := sc, shortcode := sc, caption := "", hashtags := [] }

/-- The candidate loop of `extractFromHtml` over one pattern's matches
(lines 988-1016): length-window and dedup checks, then the limit break. -/
def extractCandidates (limit : Nat) : List String → List PostData → List PostData
  | [], posts => posts
  | sc :: rest, posts =>
    if 5 < sc.length ∧ sc.length < 20 ∧
        ¬ posts.any (fun p => p.shortcode == sc) then
      if limit ≤ posts.length then posts
      else extractCandidates limit rest (posts ++ [extractHtmlPost sc])
    else extractCandidates limit rest posts

/-- Embeds `HashtagStrategy.extractFromHtml` (lines 981-1019): the outer loop
over the two shortcode patterns, breaking once `limit` is reached. -/
def extractFromHtml (limit : Nat) : List (List String) → List PostData → List PostData
  | [], posts => posts
  | pat :: rest, posts =>
    let posts2 := extractCandidates limit pat posts
    if limit ≤ posts2.length then posts2
    else extractFromHtml limit rest posts2

/-- One page of pagination results: the parsed edges and the
`page_info` fields (`has_next_page`, `end_cursor`). -/
structure PageResult where
  edges : List (Option PostData)
  hasNextPage : Bool
  endCursor : Option String

/-- Environment of strategy 1, `scrapeWithPagination` (lines 486-594): the
initial navigation outcome, the initial page's regex matches and DOM page
info, the per-request pagination fetch results (indexed by `pageCount`), and
the page content seen by each scroll of the fallback. -/
structure PaginationEnv where
  gotoOk : Bool
  initialHtml : List (List String)
  initialPageInfo : Option (String × Bool)
  fetchQueryHash : Nat → Option PageResult
  fetchDocId : Nat → Option PageResult
  scrollHtml : Nat → List (List String)

/-- `MAX_PAGES = Math.ceil(limit / 50) + 3` (line 495). -/
def MAX_PAGES (limit : Nat) : Nat := (limit + 49) / 50 + 3

/-- The query-hash fetch with doc-id fallback (lines 528-544): the doc-id
method is tried when the first returns nothing or an empty edge list. -/
def combinedFetch (env : PaginationEnv) (n : Nat) : Option PageResult :=
  match env.fetchQueryHash n with
  | some r => if r.edges.isEmpty then env.fetchDocId n else some r
  | none => env.fetchDocId n

/-- The pagination while-loop (lines 522-577).  The fuel argument encodes the
`pageCount < MAX_PAGES` bound; `cursor` is threaded for faithfulness although
the abstract fetch environment is keyed by request number.  An `end_cursor`
that is the empty string is coerced to `none` per `pageInfo?.end_cursor ||
null`. -/
def paginationLoop (env : PaginationEnv) (limit : Nat) :
    Nat → Nat → List PostData → Option String → Bool → List PostData
  | 0, _, posts, _, _ => posts
  | fuel + 1, pageCount, posts, _cursor, hasNext =>
    if limit ≤ posts.length ∨ hasNext = false then posts
    else
      match combinedFetch env (pageCount + 1) with
      | none => posts
      | some r =>
        if r.edges.isEmpty then posts
        else
          let posts2 := processEdges limit r.edges posts
          let cursor2 : Option String :=
            match r.endCursor with
            | some "" => none
            | x => x
          if r.hasNextPage = false ∨ cursor2 = none then posts2
          else paginationLoop env limit fuel (pageCount + 1) posts2 cursor2 r.hasNextPage

/-- The scroll loop of `scrollFallback` (lines 607-641): stop at `limit`, at
the scroll budget (fuel), or after 5 scrolls with no new shortcode. -/
def scrollLoop (env : PaginationEnv) (limit : Nat) :
    Nat → Nat → List PostData → Nat → List PostData
  | 0, _, posts, _ => posts
  | fuel + 1, scrollCount, posts, noNew =>
    if limit ≤ posts.length then posts
    else
      let posts2 := extractFromHtml limit (env.scrollHtml scrollCount) posts
      let noNew2 := if posts.length < posts2.length then 0 else noNew + 1
      if 5 ≤ noNew2 then posts2
      else scrollLoop env limit fuel (scrollCount + 1) posts2 noNew2

/-- Embeds `HashtagStrategy.scrollFallback` (lines 599-645):
`maxScrolls = Math.ceil((limit - posts.length) / 5) + 10`, final slice. -/
def scrollFallback (env : PaginationEnv) (limit : Nat) (existing : List PostData) :
    List PostData :=
  let maxScrolls := (limit - existing.length + 4) / 5 + 10
  (scrollLoop env limit maxScrolls 0 existing 0).take limit

/-- Embeds strategy 1, `HashtagStrategy.scrapeWithPagination` (lines
486-594): initial extraction, the pagination loop, and the scroll fallback
when at most 15 posts were collected.  A failed initial navigation is caught
at the strategy scope and reaches the fallback check with no posts. -/
def scrapeWithPagination (env : PaginationEnv) (limit : Nat) : List PostData :=
  let posts :=
    if env.gotoOk then
      let posts0 := extractFromHtml limit env.initialHtml []
      let (cursor0, hasNext0) :=
        match env.initialPageInfo with
        | some (ec, hn) => (some ec, hn)
        | none => (none, true)
      paginationLoop env limit (MAX_PAGES limit) 0 posts0 cursor0 hasNext0
    else []
  if posts.length < limit ∧ posts.length ≤ 15 then
    scrollFallback env limit posts
  else
    posts.take limit

/-- Environment of strategy 2, `scrapeViaLiveInterception` (lines 799-874):
the navigation outcome, responses captured while navigating, the initial
page's matches, and per-scroll captured responses and page matches. -/
structure LiveEnv where
  gotoOk : Bool
  navResponses : List CapturedResponse
  initialHtml : List (List String)
  iterResponses : Nat → List CapturedResponse
  iterHtml : Nat → List (List String)

/-- The response handler: each captured response is pushed through
`processCapturedResponses([data], posts, limit)` (line 810). -/
def handleResponses (limit : Nat) (rs : List CapturedResponse)
    (posts : List PostData) : List PostData :=
  rs.foldl (fun ps r => processCapturedResponses limit [r] ps) posts

/-- The scroll loop of strategy 2 (lines 839-862), with the responses
captured during each iteration's wait processed by the live handler. -/
def liveLoop (env : LiveEnv) (limit : Nat) :
    Nat → Nat → List PostData → Nat → Nat → List PostData
  | 0, _, posts, _, _ => posts
  | fuel + 1, scrollCount, posts, lastCount, noNew =>
    if limit ≤ posts.length then posts
    else
      let posts2 := handleResponses limit (env.iterResponses scrollCount) posts
      let posts3 := extractFromHtml limit (env.iterHtml scrollCount) posts2
      let noNew2 := if posts3.length = lastCount then noNew + 1 else 0
      let last2 := if posts3.length = lastCount then lastCount else posts3.length
      if 5 ≤ noNew2 then posts3
      else liveLoop env limit fuel (scrollCount + 1) posts3 last2 noNew2

/-- All responses the detachable handler may have captured over the life of
strategy 2 (navigation plus every scroll wait within the scroll budget). -/
def allResponses (env : LiveEnv) (limit : Nat) : List CapturedResponse :=
  env.navResponses ++ (List.range (max 25 ((limit + 9) / 10 + 5))).flatMap env.iterResponses

/-- Embeds strategy 2, `HashtagStrategy.scrapeViaLiveInterception` (lines
799-874): initial extraction with live response capture, the scroll loop
(`maxScrolls = Math.max(25, Math.ceil(limit / 10) + 5)`), a final
`processCapturedResponses` pass over everything captured, and the slice. -/
def scrapeViaLiveInterception (env : LiveEnv) (limit : Nat) : List PostData :=
  let posts :=
    if env.gotoOk then
      let posts0 := handleResponses limit env.navResponses []
      let posts1 := extractFromHtml limit env.initialHtml posts0
      liveLoop env limit (max 25 ((limit + 9) / 10 + 5)) 0 posts1 posts1.length 0
    else []
  (processCapturedResponses limit (allResponses env limit) posts).take limit

/-- Embeds strategy 3, `HashtagStrategy.scrapeViaDocIdGraphQL` (lines
879-901): a single fetch (`none` when it threw), processed only when a
hashtag payload is present. -/
def scrapeViaDocIdGraphQL (response : Option CapturedResponse) (limit : Nat) :
    List PostData :=
  match response with
  | none => []
  | some none => []
  | some (some edges) => processCapturedResponses limit [some edges] []

/-- The item loop of strategy 4 (lines 920-929): a media item is represented
by its `mapMediaToPost` image; a falsy `media.code` is an empty shortcode. -/
def webInfoItems (limit : Nat) : List PostData → List PostData → List PostData
  | [], posts => posts
  | m :: rest, posts =>
    if limit ≤ posts.length then posts
    else if m.shortcode ≠ "" ∧ ¬ posts.any (fun p => p.shortcode == m.shortcode) then
      webInfoItems limit rest (posts ++ [m])
    else
      webInfoItems limit rest posts

/-- Embeds strategy 4, `HashtagStrategy.scrapeViaWebInfoEndpoint` (lines
906-935): `none` when the fetch threw or no hashtag payload was present,
otherwise the sections of the web-info payload. -/
def scrapeViaWebInfoEndpoint (sections : Option (List (List PostData)))
    (limit : Nat) : List PostData :=
  match sections with
  | none => []
  | some secs => secs.foldl (fun ps sec => webInfoItems limit sec ps) []

/-- The character class `[a-z0-9_]` of `sanitizeHashtag`. -/
def isTagChar (c : Char) : Bool :=
  ('a' ≤ c && c ≤ 'z') || c.isDigit || c == '_'

/-- Embeds `HashtagStrategy.sanitizeHashtag` (lines 940-947):
`hashtag.replace(/^#/, '').toLowerCase().trim()` must match
`^[a-z0-9_]+$`, otherwise a `BadRequestException` is thrown. -/
def sanitizeHashtag (hashtag : String) : Except String (List Char) :=
  let cs := hashtag.toList
  let cs1 := match cs with
    | '#' :: rest => rest
    | _ => cs
  let cs2 := jsTrim (cs1.map Char.toLower)
  if cs2 ≠ [] ∧ cs2.all isTagChar then .ok cs2
  else .error "Invalid hashtag format. Use only letters, numbers, and underscores."

/-- Full environment of the hashtag engine: one sub-environment per strategy. -/
structure HashtagEnv where
  pag : PaginationEnv
  live : LiveEnv
  docId : Option CapturedResponse
  webInfo : Option (List (List PostData))

/-- The engine's outcome: the returned posts and the 1-based indices of the
strategies that actually ran, in order. -/
structure EngineResult where
  posts : List PostData
  invoked : List Nat
  deriving DecidableEq, Repr

/-- The strategy chain of `HashtagStrategy.scrapeHashtag` (lines 384-418):
strategy 1 is accepted when `posts.length >= limit * 0.7` — modelled exactly
over rationals as `7 * limit ≤ 10 * posts.length` — and each later strategy
when it returns more than 0 posts; otherwise the empty result is returned
with all four strategies having run. -/
def hashtagChain (s1 s2 s3 s4 : List PostData) (limit : Nat) : EngineResult :=
  if 7 * limit ≤ 10 * s1.length then ⟨s1, [1]⟩
  else if 0 < s2.length then ⟨s2, [1, 2]⟩
  else if 0 < s3.length then ⟨s3, [1, 2, 3]⟩
  else if 0 < s4.length then ⟨s4, [1, 2, 3, 4]⟩
  else ⟨[], [1, 2, 3, 4]⟩

/-- Embeds `HashtagStrategy.scrapeHashtag` (lines 374-418): sanitize the
input (a `BadRequestException` is modelled by `.error`), then run the
strategy chain over the abstract browser environment. -/
def scrapeHashtag (hashtag : String) (env : HashtagEnv) (limit : Nat) :
    Except String EngineResult :=
  match sanitizeHashtag hashtag with
  | .error e => .error e
  | .ok _ =>
    .ok (hashtagChain
      (scrapeWithPagination env.pag limit)
      (scrapeViaLiveInterception env.live limit)
      (scrapeViaDocIdGraphQL env.docId limit)
      (scrapeViaWebInfoEndpoint env.webInfo limit)
      limit)

/-! ## Proxy pool (proxy.service.ts)

`lastUsed` timestamps, protocols and credentials play no role in the verified
properties and are omitted from the endpoint record. -/

structure ProxyConfig where
  host : String
  port : Nat
  isActive : Bool
  failCount : Nat
  deriving DecidableEq, Repr

/-- The `host:port` key used by the request-count map and by the lookups of
`markProxyFailed` / `markProxySuccess` / `resetProxy`. -/
def proxyKey (p : ProxyConfig) : String × Nat := (p.host, p.port)

/-- The pool state: endpoint list, round-robin index, per-endpoint request
counts (`Map<string, number>` as an association list) and the per-endpoint
request budget. -/
structure ProxyState where
  proxies : List ProxyConfig
  currentIndex : Nat
  requestCounts : List ((String × Nat) × Nat)
  requestsPerProxy : Nat
  deriving DecidableEq, Repr

/-- `this.requestCounts.get(key) || 0`. -/
def countsGet (m : List ((String × Nat) × Nat)) (k : String × Nat) : Nat :=
  match m.find? (fun e => e.1 == k) with
  | some e => e.2
  | none => 0

/-- `this.requestCounts.set(key, v)`. -/
def countsSet (m : List ((String × Nat) × Nat)) (k : String × Nat) (v : Nat) :
    List ((String × Nat) × Nat) :=
  if m.any (fun e => e.1 == k) then
    m.map (fun e => if e.1 == k then (k, v) else e)
  else m ++ [(k, v)]

/-- The scan of `getNextProxy` (lines 70-82): starting at `currentIndex`, the
first active endpoint whose request count is below the budget, together with
its index in the active list.  The fuel is the length of the active list. -/
def findAvailable (s : ProxyState) (active : List ProxyConfig) :
    Nat → Nat → Option (Nat × ProxyConfig)
  | 0, _ => none
  | fuel + 1, i =>
    match active.get? ((s.currentIndex + i) % active.length) with
    | none => none
    | some p =>
      if countsGet s.requestCounts (proxyKey p) < s.requestsPerProxy then
        some ((s.currentIndex + i) % active.length, p)
      else findAvailable s active fuel (i + 1)

/-- `const activeProxies = this.proxies.filter(p => p.isActive)` (line 63). -/
def activeProxies (s : ProxyState) : List ProxyConfig :=
  s.proxies.filter (fun p => p.isActive)

/-- Embeds `ProxyService.getNextProxy` (lines 62-95): round-robin over active
endpoints; when every active endpoint has exhausted its budget, all counts
are cleared and rotation restarts from the first active endpoint. -/
def getNextProxy (s : ProxyState) : Option ProxyConfig × ProxyState :=
  if (activeProxies s).isEmpty then (none, s)
  else
    match findAvailable s (activeProxies s) (activeProxies s).length 0 with
    | some (index, p) =>
      (some p,
        { s with
          currentIndex := (index + 1) % (activeProxies s).length
          requestCounts :=
            countsSet s.requestCounts (proxyKey p)
              (countsGet s.requestCounts (proxyKey p) + 1) })
    | none =>
      match (activeProxies s).head? with
      | none => (none, s)
      | some p =>
        (some p,
          { s with
            requestCounts := [(proxyKey p, 1)]
            currentIndex := 1 % (activeProxies s).length })

/-- `this.proxies.find(p => p.host === host && p.port === port)` followed by
an in-place mutation: only the first matching entry is rewritten. -/
def updateFirstProxy (host : String) (port : Nat) (f : ProxyConfig → ProxyConfig) :
    List ProxyConfig → List ProxyConfig
  | [] => []
  | q :: rest =>
    if q.host == host && q.port == port then f q :: rest
    else q :: updateFirstProxy host port f rest

/-- The per-endpoint effect of a failure report: increment the
consecutive-failure count, deactivating the endpoint once it reaches 3. -/
def failBump (q : ProxyConfig) : ProxyConfig :=
  if 3 ≤ q.failCount + 1 then
    { q with failCount := q.failCount + 1, isActive := false }
  else { q with failCount := q.failCount + 1 }

/-- Embeds `ProxyService.markProxyFailed` (lines 100-115): increment the
consecutive-failure count of the endpoint named by the argument's host and
port, deactivating it once the count reaches 3. -/
def markProxyFailed (s : ProxyState) (host : String) (port : Nat) : ProxyState :=
  { s with proxies := updateFirstProxy host port failBump s.proxies }

/-- Embeds `ProxyService.markProxySuccess` (lines 120-128): reset the
consecutive-failure count (the active flag is not touched). -/
def markProxySuccess (s : ProxyState) (host : String) (port : Nat) : ProxyState :=
  { s with
    proxies := updateFirstProxy host port (fun q => { q with failCount := 0 }) s.proxies }

/-- Embeds `ProxyService.resetProxy` (lines 133-141): reactivate and zero the
failure count. -/
def resetProxy (s : ProxyState) (host : String) (port : Nat) : ProxyState :=
  { s with
    proxies := updateFirstProxy host port
      (fun q => { q with isActive := true, failCount := 0 }) s.proxies }

/-- The pool operations a caller can interleave. -/
inductive ProxyOp
  | next
  | fail (host : String) (port : Nat)
  | success (host : String) (port : Nat)
  | reset (host : String) (port : Nat)
  deriving DecidableEq, Repr

/-- Run a sequence of pool operations, collecting every `next` result. -/
def runProxyOps (s : ProxyState) : List ProxyOp → ProxyState × List (Option ProxyConfig)
  | [] => (s, [])
  | op :: rest =>
    match op with
    | .next =>
      let (r, s2) := getNextProxy s
      let (s3, outs) := runProxyOps s2 rest
      (s3, r :: outs)
    | .fail h p =>
      runProxyOps (markProxyFailed s h p) rest
    | .success h p =>
      runProxyOps (markProxySuccess s h p) rest
    | .reset h p =>
      runProxyOps (resetProxy s h p) rest

/-! ## Global search (`ScraperService.searchPostsByCaption`, lines 405-558)

The three sub-strategies (hashtag expansion, explore search, reels explore)
are abstracted by their result lists; `none` models a sub-strategy that threw
(the exception is caught and logged in the source).  The rate limiter
`acquireToken` calls sit outside those inner try blocks, so their failures
abort the whole job; they are driven by an explicit oracle. -/

mutual
/-- JS `String.prototype.split(/\s+/)`: maximal whitespace runs separate the
segments; a leading or trailing run contributes an empty segment.
`splitWsSeg cs acc` is the collecting state (current segment reversed in
`acc`). -/
def splitWsSeg : List Char → List Char → List (List Char)
  | [], acc => [acc.reverse]
  | c :: rest, acc =>
    if c.isWhitespace then acc.reverse :: splitWsSkip rest
    else splitWsSeg rest (c :: acc)
/-- The inside-a-separator state of the whitespace split. -/
def splitWsSkip : List Char → List (List Char)
  | [] => [[]]
  | c :: rest =>
    if c.isWhitespace then splitWsSkip rest
    else splitWsSeg rest [c]
end

/-- `keyword.toLowerCase().split(/\s+/).map(kw => kw.replace(/^#/, ''))`
(line 428). -/
def searchTerms (keyword : String) : List (List Char) :=
  (splitWsSeg (keyword.toList.map Char.toLower) []).map
    (fun t =>
      match t with
      | '#' :: rest => rest
      | _ => t)

/-- The accumulator of the search: collected posts plus the
`seenShortcodes` set (insertion-ordered). -/
structure SearchAcc where
  posts : List PostData
  seen : List String
  deriving DecidableEq, Repr

/-- The dedup-and-cap push loop used for hashtag results (lines 464-470) and
reel results (lines 520-526): stop at `resultLimit`, skip seen shortcodes,
otherwise record the shortcode and append the post. -/
def addPostsDedup (resultLimit : Nat) : List PostData → SearchAcc → SearchAcc
  | [], acc => acc
  | p :: rest, acc =>
    if resultLimit ≤ acc.posts.length then acc
    else if acc.seen.contains p.shortcode then addPostsDedup resultLimit rest acc
    else
      addPostsDedup resultLimit rest
        ⟨acc.posts ++ [p], acc.seen ++ [p.shortcode]⟩

/-- Prefix test on character lists (helper for the substring check). -/
def startsWithChars : List Char → List Char → Bool
  | _, [] => true
  | [], _ :: _ => false
  | c :: cs, d :: ds => c == d && startsWithChars cs ds

/-- JS `String.prototype.includes` on character lists: the needle occurs as a
contiguous substring of the haystack (an empty needle always occurs). -/
def containsSub : List Char → List Char → Bool
  | [], needle => needle.isEmpty
  | c :: rest, needle => startsWithChars (c :: rest) needle || containsSub rest needle

/-- The explore push loop (lines 490-506): same cap and dedup, plus the
keyword filter over lowercased caption and hashtags. -/
def addExplorePosts (resultLimit : Nat) (terms : List (List Char)) :
    List PostData → SearchAcc → SearchAcc
  | [], acc => acc
  | p :: rest, acc =>
    if resultLimit ≤ acc.posts.length then acc
    else if acc.seen.contains p.shortcode then addExplorePosts resultLimit terms rest acc
    else if terms.any (fun t =>
        containsSub (p.caption.toList.map Char.toLower) t ||
          (p.hashtags.map (fun h => h.toList.map Char.toLower)).any
            (fun h => containsSub h t)) then
      addExplorePosts resultLimit terms rest
        ⟨acc.posts ++ [p], acc.seen ++ [p.shortcode]⟩
    else addExplorePosts resultLimit terms rest acc

/-- Sub-strategy results of one search run, indexed per search term for the
hashtag expansion.  `none` = the sub-strategy threw (caught and logged). -/
structure SearchEnv where
  hashtagResult : Nat → Option (List PostData)
  exploreResult : Option (List PostData)
  reelResult : Option (List PostData)

/-- Failure oracle for the `acquireToken` calls of the search (which sit
outside the inner catches) and for the initial context setup. -/
structure SearchOracle where
  initOk : Bool
  termAcquireOk : Nat → Bool
  exploreAcquireOk : Bool
  reelAcquireOk : Bool

/-- The per-term loop of sub-strategy 1 (lines 451-479): break at the cap,
acquire (fallible), then accumulate that term's hashtag posts.  The returned
flag is `false` when an acquire failure aborted the job. -/
def searchTermLoop (env : SearchEnv) (o : SearchOracle) (resultLimit : Nat) :
    Nat → Nat → SearchAcc → SearchAcc × Bool
  | 0, _, acc => (acc, true)
  | n + 1, i, acc =>
    if resultLimit ≤ acc.posts.length then (acc, true)
    else if o.termAcquireOk i = false then (acc, false)
    else
      match env.hashtagResult i with
      | none => searchTermLoop env o resultLimit n (i + 1) acc
      | some ps => searchTermLoop env o resultLimit n (i + 1) (addPostsDedup resultLimit ps acc)

/-- Sub-strategy 2 of the search (lines 481-510): only below the cap,
acquire (fallible), then accumulate the filtered explore posts; a throwing
explore search is caught. -/
def searchPhase2 (terms : List (List Char)) (resultLimit : Nat) (env : SearchEnv)
    (o : SearchOracle) (acc : SearchAcc) : SearchAcc × Bool :=
  if acc.posts.length < resultLimit then
    if o.exploreAcquireOk = false then (acc, false)
    else
      match env.exploreResult with
      | none => (acc, true)
      | some ps => (addExplorePosts resultLimit terms ps acc, true)
  else (acc, true)

/-- Sub-strategy 3 of the search (lines 512-530): only below the cap,
acquire (fallible), then accumulate the reel posts; a throwing reel search
is caught. -/
def searchPhase3 (resultLimit : Nat) (env : SearchEnv) (o : SearchOracle)
    (acc : SearchAcc) : SearchAcc × Bool :=
  if acc.posts.length < resultLimit then
    if o.reelAcquireOk = false then (acc, false)
    else
      match env.reelResult with
      | none => (acc, true)
      | some ps => (addPostsDedup resultLimit ps acc, true)
  else (acc, true)

/-- Embeds `ScraperService.searchPostsByCaption` (lines 405-558) at the data
level: the three sub-strategies in order, each guarded by the cap, merging
into one accumulator deduplicated by shortcode.  Returns the collected posts
(which the method returns on every path) and whether the job completed.
`searchLimit` only parametrizes the per-term limits handed to the abstract
sub-strategies and is unused here. -/
def searchPostsByCaption (keyword : String) (_searchLimit resultLimit : Nat)
    (env : SearchEnv) (o : SearchOracle) : List PostData × Bool :=
  if o.initOk = false then ([], false)
  else if (searchTermLoop env o resultLimit (searchTerms keyword).length 0
      ⟨[], []⟩).2 = false then
    ((searchTermLoop env o resultLimit (searchTerms keyword).length 0 ⟨[], []⟩).1.posts,
      false)
  else if (searchPhase2 (searchTerms keyword) resultLimit env o
      (searchTermLoop env o resultLimit (searchTerms keyword).length 0 ⟨[], []⟩).1).2 =
      false then
    ((searchPhase2 (searchTerms keyword) resultLimit env o
      (searchTermLoop env o resultLimit (searchTerms keyword).length 0 ⟨[], []⟩).1).1.posts,
      false)
  else
    ((searchPhase3 resultLimit env o
        (searchPhase2 (searchTerms keyword) resultLimit env o
          (searchTermLoop env o resultLimit (searchTerms keyword).length 0
            ⟨[], []⟩).1).1).1.posts,
      (searchPhase3 resultLimit env o
        (searchPhase2 (searchTerms keyword) resultLimit env o
          (searchTermLoop env o resultLimit (searchTerms keyword).length 0
            ⟨[], []⟩).1).1).2)

/-! ## Rate limiter with cooldowns (the `RateLimiterService` of
rate-limiter.service.ts used by the hashtag strategy: `waitBeforeRequest`,
`reportError`, `triggerCooldown`)

Timestamps and delays are exact rationals (milliseconds); the two
`Math.random()` draws of `calculateDelay` are oracle inputs in `[0, 1)`.
`sessionStartTime` feeds only logging and `shouldRotateSession` and is
omitted. -/

structure RateConfig where
  minDelayMs : ℚ
  maxDelayMs : ℚ
  requestsPerMinute : Nat
  requestsPerHour : Nat
  maxRequestsPerSession : Nat

structure RateState where
  requestTimestamps : List ℚ
  sessionRequestCount : Nat
  consecutiveErrors : Nat
  isInCooldown : Bool
  cooldownUntil : ℚ

/-- Embeds `triggerCooldown` (lines 333-337). -/
def triggerCooldown (s : RateState) (now durationMs : ℚ) : RateState :=
  { s with isInCooldown := true, cooldownUntil := now + durationMs }

/-- Embeds `reportError` (lines 315-328): bump the consecutive error count;
429 → 5-minute cooldown, 401/403 → 1-minute cooldown, anything else only
logs. -/
def reportError (s : RateState) (statusCode : Option Nat) (now : ℚ) : RateState :=
  let s2 := { s with consecutiveErrors := s.consecutiveErrors + 1 }
  match statusCode with
  | some 429 => triggerCooldown s2 now (5 * 60 * 1000)
  | some 401 => triggerCooldown s2 now (60 * 1000)
  | some 403 => triggerCooldown s2 now (60 * 1000)
  | _ => s2

/-- Embeds `reportSuccess` (lines 308-310). -/
def rateReportSuccess (s : RateState) : RateState :=
  { s with consecutiveErrors := 0 }

/-- The session-cookie cache of the scraper `AuthService` (auth.service.ts of
the scraper module): `invalidateSession` clears it. -/
structure AuthState where
  cachedSessionId : Option String
  deriving DecidableEq, Repr

/-- Embeds `AuthService.invalidateSession` (lines 187-190). -/
def invalidateSession (a : AuthState) : AuthState :=
  { a with cachedSessionId := none }

/-- Rate limiter and session manager side by side, as they exist in the
process. -/
structure RateAuthState where
  rate : RateState
  auth : AuthState

/-- `RateLimiterService.reportError` acting on the combined state.  The
service holds no reference to the `AuthService` (its only dependencies are
the Nest config service), and `invalidateSession` has no caller anywhere in
the repository, so the session cache is untouched on every status code. -/
def reportErrorSys (s : RateAuthState) (statusCode : Option Nat) (now : ℚ) :
    RateAuthState :=
  { s with rate := reportError s.rate statusCode now }

/-- The two `Math.random()` draws of `calculateDelay`. -/
structure DelayOracle where
  r1 : ℚ
  r2 : ℚ

/-- Embeds `calculateDelay` (lines 239-262): random base delay, session
multipliers past 20 and 40 requests, exponential error backoff capped at 60s,
±10% variance, floored. -/
def calculateDelay (cfg : RateConfig) (s : RateState) (o : DelayOracle) : ℚ :=
  let d1 := cfg.minDelayMs + o.r1 * (cfg.maxDelayMs - cfg.minDelayMs)
  let d2 := if 20 < s.sessionRequestCount then d1 * (12 / 10) else d1
  let d3 := if 40 < s.sessionRequestCount then d2 * (15 / 10) else d2
  let d4 :=
    if 0 < s.consecutiveErrors then min (d3 * 2 ^ s.consecutiveErrors) 60000 else d3
  let variance := d4 * (1 / 10)
  let d5 := d4 + (o.r2 - 1 / 2) * 2 * variance
  ((Int.floor d5 : ℤ) : ℚ)

/-- Embeds `enforceRateLimits` (lines 267-295): drop timestamps older than an
hour, wait out the per-minute and per-hour windows (`now` is sampled once in
the source), and reset the session counter at the session cap.  Returns the
new state and the sleeps performed. -/
def enforceRateLimits (cfg : RateConfig) (s : RateState) (now : ℚ) :
    RateState × List ℚ :=
  let ts := s.requestTimestamps.filter (fun t => now - t < 3600000)
  let lastMinute := (ts.filter (fun t => now - t < 60000)).length
  let sleep1 : List ℚ :=
    if cfg.requestsPerMinute ≤ lastMinute then
      match ts.find? (fun t => now - t < 60000) with
      | some oldest => [60000 - (now - oldest) + 1000]
      | none => [60000]
    else []
  let sleep2 : List ℚ :=
    if cfg.requestsPerHour ≤ ts.length then
      match ts.head? with
      | some oldest => [min (3600000 - (now - oldest) + 1000) 300000]
      | none => [min (60000 : ℚ) 300000]
    else []
  let s2 := { s with requestTimestamps := ts }
  let s3 :=
    if cfg.maxRequestsPerSession ≤ s2.sessionRequestCount then
      { s2 with sessionRequestCount := 0 }
    else s2
  (s3, sleep1 ++ sleep2)

/-- The cooldown gate opening `waitBeforeRequest` (lines 216-221): when a
cooldown is active, sleep out its remainder and clear the flag.  Returns the
state, the time after the gate and the sleep performed. -/
def cooldownGate (s : RateState) (now : ℚ) : RateState × ℚ × List ℚ :=
  if s.isInCooldown ∧ now < s.cooldownUntil then
    ({ s with isInCooldown := false }, s.cooldownUntil, [s.cooldownUntil - now])
  else (s, now, [])

/-- The remainder of `waitBeforeRequest` after the cooldown gate (lines
223-232): enforce the rate windows, apply the human-pacing delay, record the
request timestamp. -/
def postGate (cfg : RateConfig) (s1 : RateState) (now1 : ℚ) (o : DelayOracle) :
    RateState × ℚ × List ℚ :=
  ({ (enforceRateLimits cfg s1 now1).1 with
      requestTimestamps := (enforceRateLimits cfg s1 now1).1.requestTimestamps ++
        [now1 + ((enforceRateLimits cfg s1 now1).2.foldl (· + ·) 0) +
          calculateDelay cfg (enforceRateLimits cfg s1 now1).1 o]
      sessionRequestCount := (enforceRateLimits cfg s1 now1).1.sessionRequestCount + 1 },
    now1 + ((enforceRateLimits cfg s1 now1).2.foldl (· + ·) 0) +
      calculateDelay cfg (enforceRateLimits cfg s1 now1).1 o,
    (enforceRateLimits cfg s1 now1).2 ++
      [calculateDelay cfg (enforceRateLimits cfg s1 now1).1 o])

/-- Embeds `waitBeforeRequest` (lines 214-233): wait out an active cooldown
first (clearing the flag), then enforce the rate windows, then the
human-pacing delay, then record the request.  Returns the new state, the
completion time, and the sleeps performed in order. -/
def waitBeforeRequest (cfg : RateConfig) (s : RateState) (now : ℚ)
    (o : DelayOracle) : RateState × ℚ × List ℚ :=
  ((postGate cfg (cooldownGate s now).1 (cooldownGate s now).2.1 o).1,
    (postGate cfg (cooldownGate s now).1 (cooldownGate s now).2.1 o).2.1,
    (cooldownGate s now).2.2 ++
      (postGate cfg (cooldownGate s now).1 (cooldownGate s now).2.1 o).2.2)

/-! ## Browser context registry (browser.service.ts)

`activeContexts : Map<string, BrowserContext>` is modelled by the ordered
list of its keys.  `createContext` registers the id only after every awaited
setup step succeeded (the `set` is the last statement before the return);
`closeContext` closes and removes a registered id and does nothing for an
unknown one.  The fallibility of `context.close()` is driven by an oracle. -/

/-- Embeds `BrowserService.closeContext` (lines 222-229). -/
def closeContext (closeFails : Bool) (b : List String) (ctxId : String) :
    Except Unit (List String) :=
  if b.contains ctxId then
    if closeFails then .error () else .ok (b.erase ctxId)
  else .ok b

/-! ## Job lifecycle of the scraper operations (scraper.service.ts,
data.service.ts)

Every top-level operation follows the same shape: create the job with status
`processing`, run a `try` body whose awaited actions can throw and whose
`updateJob` calls cannot, apply the `catch` update (status `failed`) when an
action threw, and close the job's browser context in `finally`.  `Step`
captures exactly the job- and browser-relevant effects of the bodies;
synchronous infallible calls (logging, `reportSuccess`, `getNextProxy`) have
no modeled effect and are elided. -/

inductive JobStatus
  | pending
  | processing
  | completed
  | failed
  deriving DecidableEq, Repr

/-- `completed` and `failed` are the terminal statuses. -/
def JobStatus.isTerminal : JobStatus → Bool
  | .completed => true
  | .failed => true
  | _ => false

/-- The job record (`ScrapeJob`).  `completedAt` is an opaque tick; the
constant identity fields (id, type, input, createdAt) are elided. -/
structure Job where
  status : JobStatus
  progress : Nat
  totalItems : Nat
  scrapedItems : Nat
  error : Option String
  completedAt : Option Nat
  deriving DecidableEq, Repr

/-- A partial update handed to `DataService.updateJob`; `none` fields are
absent from the `Partial<ScrapeJob>`. -/
structure JobUpdate where
  status : Option JobStatus
  progress : Option Nat
  scrapedItems : Option Nat
  error : Option (Option String)
  completedAt : Option Nat
  deriving DecidableEq, Repr

/-- Embeds `DataService.updateJob` (data.service.ts lines 457-466):
`Object.assign(job, updates)` — present fields overwrite, absent fields are
kept; no status guard of any kind. -/
def applyUpdate (j : Job) (u : JobUpdate) : Job :=
  { status := u.status.getD j.status
    progress := u.progress.getD j.progress
    totalItems := j.totalItems
    scrapedItems := u.scrapedItems.getD j.scrapedItems
    error := u.error.getD j.error
    completedAt :=
      match u.completedAt with
      | some t => some t
      | none => j.completedAt }

/-- One step of an operation body. -/
inductive Step
  | act
  | createCtx
  | update (u : JobUpdate)

/-- An operation flow: the created job, the try body, the catch update and
the id of the job's browser context. -/
structure Flow where
  initJob : Job
  body : List Step
  catchUpdate : JobUpdate
  ctxId : String

/-- Run the body steps.  `oracle n` decides whether the n-th fallible action
throws; a throw abandons the rest of the body.  Returns the job, the browser
registry, the list of job states after each executed update, and whether the
body threw. -/
def runSteps (ctxId : String) (oracle : Nat → Bool) :
    List Step → Nat → Job → List String → Job × List String × List Job × Bool
  | [], _, j, b => (j, b, [], false)
  | .update u :: rest, n, j, b =>
    let j2 := applyUpdate j u
    let (j3, b3, tr, thr) := runSteps ctxId oracle rest n j2 b
    (j3, b3, j2 :: tr, thr)
  | .act :: rest, n, j, b =>
    if oracle n then (j, b, [], true)
    else runSteps ctxId oracle rest (n + 1) j b
  | .createCtx :: rest, n, j, b =>
    if oracle n then (j, b, [], true)
    else
      let b2 := if b.contains ctxId then b else b ++ [ctxId]
      runSteps ctxId oracle rest (n + 1) j b2

/-- Outcome of a whole operation flow. -/
structure FlowResult where
  job : Job
  browser : List String
  trace : List Job

/-- Run a flow: body, catch update on a throw, `finally` close of the job's
context (a failing close leaves the registry as it was, mirroring an
exception out of `context.close()`). -/
def runFlow (f : Flow) (oracle : Nat → Bool) (closeFails : Bool)
    (b0 : List String) : FlowResult :=
  let (j1, b1, tr, thr) := runSteps f.ctxId oracle f.body 0 f.initJob b0
  let j2 := if thr then applyUpdate j1 f.catchUpdate else j1
  let tr2 := if thr then tr ++ [j2] else tr
  let b2 :=
    match closeContext closeFails b1 f.ctxId with
    | .ok nb => nb
    | .error _ => b1
  { job := j2, browser := b2, trace := f.initJob :: tr2 }

/-- `Math.round((a / b) * 100)`-style progress value (0 when the denominator
is 0; that division-by-zero case produces `NaN` in JS and feeds only the
cosmetic progress field). -/
def roundDiv (a b : Nat) : Nat := if b = 0 then 0 else (2 * a + b) / (2 * b)

/-- A fresh job record as built by each operation (status `processing`). -/
def initialJob (totalItems : Nat) : Job :=
  { status := .processing, progress := 0, totalItems := totalItems
    scrapedItems := 0, error := none, completedAt := none }

/-- The catch update of every operation: status `failed`, error message,
completion timestamp. -/
def failedUpdate (msg : String) : JobUpdate :=
  ⟨some .failed, none, none, some (some msg), some 1⟩

/-- Embeds the flow of `ScraperService.scrapeProfile` (lines 44-119):
acquire, context, page, profile scrape, items update, the optional posts
phase (`profile && includePosts && !profile.isPrivate`, with `k` scraped
posts), then the completion update. -/
def profileFlow (postsLimit : Nat) (includePosts fetchPosts : Bool) (k : Nat)
    (msg : String) : Flow :=
  { initJob := initialJob (if includePosts then postsLimit + 1 else 1)
    body :=
      [.act, .createCtx, .act, .act, .update ⟨none, some 10, some 1, none, none⟩] ++
        (if fetchPosts then
          [.act, .act, .update ⟨none, some 100, some (1 + k), none, none⟩]
        else []) ++
        [.update ⟨some .completed, none, none, none, some 1⟩]
    catchUpdate := failedUpdate msg
    ctxId := "profile_job" }

/-- Embeds the flow of `ScraperService.scrapeHashtag` (lines 124-186), with
`k` posts in the returned window. -/
def hashtagFlow (limit k : Nat) (msg : String) : Flow :=
  { initJob := initialJob limit
    body :=
      [.act, .createCtx, .act, .act,
        .update ⟨some .completed, some 100, some k, none, some 1⟩]
    catchUpdate := failedUpdate msg
    ctxId := "hashtag_job" }

/-- Embeds the flow of `ScraperService.scrapePost` (lines 191-259), with `c`
scraped comments and `withComments = post && includeComments`. -/
def postFlow (withComments : Bool) (c : Nat) (msg : String) : Flow :=
  { initJob := initialJob (if withComments then 2 else 1)
    body :=
      [.act, .createCtx, .act, .act, .update ⟨none, some 50, some 1, none, none⟩] ++
        (if withComments then [.act, .act] else []) ++
        [.update ⟨some .completed, some 100, some (1 + c), none, some 1⟩]
    catchUpdate := failedUpdate msg
    ctxId := "post_job" }

/-- Embeds the flow of `ScraperService.scrapeComments` (lines 264-319), with
`k` scraped comments. -/
def commentsFlow (limit k : Nat) (msg : String) : Flow :=
  { initJob := initialJob limit
    body :=
      [.act, .createCtx, .act, .act,
        .update ⟨some .completed, some 100, some k, none, some 1⟩]
    catchUpdate := failedUpdate msg
    ctxId := "comments_job" }

/-- Embeds the flow of `ScraperService.scrapeReels` (lines 324-395), with `n`
harvested reels and the optional per-reel detail phase. -/
def reelsFlow (limit n : Nat) (withDetails : Bool) (msg : String) : Flow :=
  { initJob := initialJob limit
    body :=
      [.act, .createCtx, .act, .act] ++
        (if withDetails then
          (List.range n).flatMap
            (fun i =>
              [.act, .act,
                .update ⟨none, some (roundDiv ((i + 1) * 100) n), some (i + 1), none, none⟩])
        else []) ++
        [.update ⟨some .completed, some 100, some n, none, some 1⟩]
    catchUpdate := failedUpdate msg
    ctxId := "reels_job" }

/-- Embeds the flow of `ScraperService.searchPostsByCaption` (lines 405-558)
for C8/C9 purposes: the optional auth step, a per-term acquire plus — when
that term's inner try completed — a progress update with the running count,
the optional explore and reels acquires, then the completion update.
`termSteps` lists, per processed term, whether its inner try succeeded and
the running post count it reported. -/
def searchFlow (resultLimit : Nat) (hasCreds : Bool)
    (termSteps : List (Bool × Nat)) (phase2 phase3 : Bool) (finalLen : Nat)
    (msg : String) : Flow :=
  { initJob := initialJob resultLimit
    body :=
      [.act, .createCtx, .act] ++ (if hasCreds then [.act] else []) ++
        (termSteps.flatMap
          (fun t =>
            [.act] ++
              (if t.1 then
                [.update ⟨none, some (roundDiv (t.2 * 50) resultLimit), some t.2, none, none⟩]
              else [])) ) ++
        (if phase2 then [.act] else []) ++
        (if phase3 then [.act] else []) ++
        [.update ⟨some .completed, some 100, some finalLen, none, some 1⟩]
    catchUpdate := failedUpdate msg
    ctxId := "search_job" }

/-- Embeds the flow of `ScraperService.scrapeDirectUrls` (lines 727-828):
context first (no leading acquire), then per url an acquire plus — when the
inner try completed — a progress update, then the completion update with `r`
results. -/
def directUrlsFlow (m : Nat) (urlOk : Nat → Bool) (r : Nat) (msg : String) : Flow :=
  { initJob := initialJob m
    body :=
      [.createCtx, .act] ++
        ((List.range m).flatMap
          (fun i =>
            [.act] ++
              (if urlOk i then
                [.update ⟨none, some (roundDiv ((i + 1) * 100) m), some (i + 1), none, none⟩]
              else []))) ++
        [.update ⟨some .completed, some 100, some r, none, some 1⟩]
    catchUpdate := failedUpdate msg
    ctxId := "urls_job" }

/-- Failure oracle for the infrastructure steps of the hashtag service
operation. -/
structure HashtagSvcOracle where
  acquireOk : Bool
  createContextOk : Bool
  createPageOk : Bool

/-- Embeds `ScraperService.scrapeHashtag` (lines 124-186) at the data level:
`offset = (page - 1) * limit`, `totalToScrape = offset + limit`, the strategy
engine, the offset window `result.posts.slice(offset, offset + limit)`, and
the completion/failure updates.  Returns the final job and the returned
posts. -/
def svcScrapeHashtag (hashtag : String) (limit pageNum : Nat)
    (env : HashtagEnv) (o : HashtagSvcOracle) : Job × List PostData :=
  if o.acquireOk = false then
    (applyUpdate (initialJob limit) (failedUpdate "rate limiter error"), [])
  else if o.createContextOk = false then
    (applyUpdate (initialJob limit) (failedUpdate "browser context error"), [])
  else if o.createPageOk = false then
    (applyUpdate (initialJob limit) (failedUpdate "browser page error"), [])
  else
    match scrapeHashtag hashtag env ((pageNum - 1) * limit + limit) with
    | .error e => (applyUpdate (initialJob limit) (failedUpdate e), [])
    | .ok r =>
      (applyUpdate (initialJob limit)
        ⟨some .completed, some 100,
          some ((r.posts.drop ((pageNum - 1) * limit)).take limit).length, none, some 1⟩,
        (r.posts.drop ((pageNum - 1) * limit)).take limit)

/-! ## Auxiliary definitions for the statements -/

/-- `this.proxies.find(p => p.host === host && p.port === port)`, the lookup
shared by the proxy mutators. -/
def findProxy (ps : List ProxyConfig) (host : String) (port : Nat) :
    Option ProxyConfig :=
  ps.find? (fun q => q.host == host && q.port == port)

/-- Three consecutive `markProxyFailed` reports for one endpoint with no
intervening success. -/
def afterThreeFailures (s : ProxyState) (host : String) (port : Nat) : ProxyState :=
  markProxyFailed (markProxyFailed (markProxyFailed s host port) host port) host port

/-- A job-state trace never leaves a terminal state: every entry that is
terminal is repeated unchanged by all later entries. -/
def FrozenAfterTerminal : List Job → Prop
  | [] => True
  | j :: rest => ((j.status.isTerminal = true) → ∀ j2 ∈ rest, j2 = j) ∧ FrozenAfterTerminal rest

/-- Every update in a step list leaves the status alone or keeps it
`processing`. -/
def NonTerminalUpdates (l : List Step) : Prop :=
  ∀ u, Step.update u ∈ l → u.status = none ∨ u.status = some JobStatus.processing

/-- A hashtag environment in which the page never loads and no fetch returns
data: every strategy collects nothing (used to instantiate hypotheses at a
concrete input). -/
def emptyHashtagEnv : HashtagEnv :=
  { pag :=
      { gotoOk := false, initialHtml := [], initialPageInfo := none
        fetchQueryHash := fun _ => none, fetchDocId := fun _ => none
        scrollHtml := fun _ => [] }
    live :=
      { gotoOk := false, navResponses := [], initialHtml := []
        iterResponses := fun _ => [], iterHtml := fun _ => [] }
    docId := none
    webInfo := none }

/-- An all-successful infrastructure oracle for the hashtag operation. -/
def okSvcOracle : HashtagSvcOracle :=
  { acquireOk := true, createContextOk := true, createPageOk := true }

/-- A two-endpoint pool used to instantiate the proxy theorems. -/
def twoProxyState : ProxyState :=
  { proxies :=
      [{ host := "p1", port := 8080, isActive := true, failCount := 0 },
       { host := "p2", port := 9090, isActive := true, failCount := 0 }]
    currentIndex := 0
    requestCounts := []
    requestsPerProxy := 50 }

/-- Two concrete posts for the search counterexample: `cPostB` carries the
shortcode surfaced by two sub-strategies. -/
def cPostA : PostData := { id := "A1", shortcode := "A1", caption := "k", hashtags := [] }

/-- The doubly-surfaced post of the search counterexample. -/
def cPostB : PostData := { id := "ABC123", shortcode := "ABC123", caption := "k", hashtags := [] }

/-- Search environment in which the hashtag expansion surfaces `cPostA` and
`cPostB` while the explore phase independently surfaces `cPostB`. -/
def cSearchEnv : SearchEnv :=
  { hashtagResult := fun i => if i = 0 then some [cPostA, cPostB] else none
    exploreResult := some [cPostB]
    reelResult := some [] }

/-- An all-successful oracle for the search operation. -/
def okSearchOracle : SearchOracle :=
  { initOk := true, termAcquireOk := fun _ => true
    exploreAcquireOk := true, reelAcquireOk := true }

/-- A combined rate/session state holding a live session cookie, used to show
that `reportError` leaves the session cache untouched. -/
def cRateAuthState : RateAuthState :=
  { rate :=
      { requestTimestamps := [], sessionRequestCount := 0, consecutiveErrors := 0
        isInCooldown := false, cooldownUntil := 0 }
    auth := { cachedSessionId := some "sess" } }

/-! # Theorems -/

/-! ## Count parser lemmas (C3) -/

theorem applySuffix_K (q : ℚ) : applySuffix q (some 'K') = q * 1000 := rfl

theorem applySuffix_M (q : ℚ) : applySuffix q (some 'M') = q * 1000000 := rfl

theorem applySuffix_B (q : ℚ) : applySuffix q (some 'B') = q * 1000000000 := rfl

theorem applySuffix_none (q : ℚ) : applySuffix q none = q := rfl

/-- Evaluation: a successful profile parse is the rounded, scaled value of
its decoded decimal. -/
theorem profileParseCount_eval (s : String) (num : List Char) (suf : Option Char)
    (v : FloatVal) (h0 : ¬ s = "")
    (h1 : matchCountAnchored (cleanCount s) = some (num, suf))
    (h2 : jsParseFloatNum num = some v) :
    profileParseCount s = some (jsRound (applySuffix v.toRat suf)) := by
  unfold profileParseCount
  rw [if_neg h0, h1]
  dsimp only
  rw [h2]

/-- Evaluation helper for the reel parser. -/
theorem reelParseCount_eval (s : String) (num : List Char) (suf : Option Char)
    (v : FloatVal) (h0 : ¬ s = "")
    (h1 : matchCountSearch (cleanCount s) = some (num, suf))
    (h2 : jsParseFloatNum num = some v) :
    reelParseCount s = some (jsRound (applySuffix v.toRat suf)) := by
  unfold reelParseCount
  rw [if_neg h0, h1]
  dsimp only
  rw [h2]

/-- A profile parse whose cleaned input fails the anchored pattern yields 0. -/
theorem profileParseCount_nomatch (s : String)
    (h : matchCountAnchored (cleanCount s) = none) : profileParseCount s = some 0 := by
  unfold profileParseCount
  by_cases hs : s = ""
  · rw [if_pos hs]
  · rw [if_neg hs, h]

/-- A reel parse whose cleaned input contains no `[\d.]` character yields 0. -/
theorem reelParseCount_nomatch (s : String)
    (h : matchCountSearch (cleanCount s) = none) : reelParseCount s = some 0 := by
  unfold reelParseCount
  by_cases hs : s = ""
  · rw [if_pos hs]
  · rw [if_neg hs, h]

/-- A profile parse whose matched numeric part holds no digit (only dots)
yields `NaN`. -/
theorem profileParseCount_nan (s : String) (num : List Char) (suf : Option Char)
    (h1 : matchCountAnchored (cleanCount s) = some (num, suf))
    (h2 : jsParseFloatNum num = none) : profileParseCount s = none := by
  unfold profileParseCount
  by_cases hs : s = ""
  · exfalso
    subst hs
    rw [show matchCountAnchored (cleanCount "") = none from by decide] at h1
    simp at h1
  · rw [if_neg hs, h1]
    dsimp only
    rw [h2]

/-- C3 (amended): the count parsers satisfy the four specified evaluations
(and the K/M/B scalings on further magnitudes); every input whose cleaned
form fails the respective numeric pattern parses to 0; but an input whose
matched numeric part holds no digit (such as ".") parses to `NaN`, not 0. -/
theorem count_parser_spec :
    profileParseCount "1.5K" = some 1500 ∧
    profileParseCount "2M" = some 2000000 ∧
    profileParseCount "12,345" = some 12345 ∧
    profileParseCount "" = some 0 ∧
    profileParseCount "1.8M" = some 1800000 ∧
    profileParseCount "2.5B" = some 2500000000 ∧
    reelParseCount "1.5K" = some 1500 ∧
    reelParseCount "2M" = some 2000000 ∧
    reelParseCount "12,345" = some 12345 ∧
    reelParseCount "" = some 0 ∧
    (∀ s, matchCountAnchored (cleanCount s) = none → profileParseCount s = some 0) ∧
    (∀ s, matchCountSearch (cleanCount s) = none → reelParseCount s = some 0) ∧
    (∀ s num suf, matchCountAnchored (cleanCount s) = some (num, suf) →
      jsParseFloatNum num = none → profileParseCount s = none) := by
  refine ⟨?_, ?_, ?_, by decide, ?_, ?_, ?_, ?_, ?_, by decide,
    profileParseCount_nomatch, reelParseCount_nomatch, profileParseCount_nan⟩
  · rw [profileParseCount_eval "1.5K" ['1', '.', '5'] (some 'K') ⟨1, 5, 1⟩
      (by decide) (by decide) (by decide), applySuffix_K]
    unfold FloatVal.toRat jsRound
    norm_num
  · rw [profileParseCount_eval "2M" ['2'] (some 'M') ⟨2, 0, 0⟩
      (by decide) (by decide) (by decide), applySuffix_M]
    unfold FloatVal.toRat jsRound
    norm_num
  · rw [profileParseCount_eval "12,345" ['1', '2', '3', '4', '5'] none ⟨12345, 0, 0⟩
      (by decide) (by decide) (by decide), applySuffix_none]
    unfold FloatVal.toRat jsRound
    norm_num
  · rw [profileParseCount_eval "1.8M" ['1', '.', '8'] (some 'M') ⟨1, 8, 1⟩
      (by decide) (by decide) (by decide), applySuffix_M]
    unfold FloatVal.toRat jsRound
    norm_num
  · rw [profileParseCount_eval "2.5B" ['2', '.', '5'] (some 'B') ⟨2, 5, 1⟩
      (by decide) (by decide) (by decide), applySuffix_B]
    unfold FloatVal.toRat jsRound
    norm_num
  · rw [reelParseCount_eval "1.5K" ['1', '.', '5'] (some 'K') ⟨1, 5, 1⟩
      (by decide) (by decide) (by decide), applySuffix_K]
    unfold FloatVal.toRat jsRound
    norm_num
  · rw [reelParseCount_eval "2M" ['2'] (some 'M') ⟨2, 0, 0⟩
      (by decide) (by decide) (by decide), applySuffix_M]
    unfold FloatVal.toRat jsRound
    norm_num
  · rw [reelParseCount_eval "12,345" ['1', '2', '3', '4', '5'] none ⟨12345, 0, 0⟩
      (by decide) (by decide) (by decide), applySuffix_none]
    unfold FloatVal.toRat jsRound
    norm_num

/-- C3 (counterexample): the input "." does not denote a K/M/B magnitude,
yet neither parser returns 0 on it — both return `NaN` (`none`). -/
theorem count_parser_dot_not_zero :
    profileParseCount "." = none ∧ reelParseCount "." = none ∧
    profileParseCount "." ≠ some 0 ∧ reelParseCount "." ≠ some 0 := by
  have h1 : profileParseCount "." = none := by
    apply profileParseCount_nan "." ['.'] none (by decide) (by decide)
  have h2 : reelParseCount "." = none := by
    unfold reelParseCount
    rw [if_neg (by decide), show matchCountSearch (cleanCount ".") = some (['.'], none) from by decide]
    dsimp only
    rw [show jsParseFloatNum ['.'] = none from by decide]
  exact ⟨h1, h2, by rw [h1]; simp, by rw [h2]; simp⟩

/-! ## Browser context registry (C10) -/

/-- C10: closing a context id that was never created, or was already closed,
is a no-op: it cannot raise (even when a real close would fail) and leaves
the registry untouched — which is what makes the unconditional `finally`
cleanup of the operations safe. -/
theorem closeContext_unknown_noop (closeFails : Bool) (b : List String)
    (ctxId : String) (h : b.contains ctxId = false) :
    closeContext closeFails b ctxId = .ok b := by
  unfold closeContext
  rw [h]
  simp

/-- Witness for C10 at a concrete registry. -/
theorem closeContext_unknown_noop_witness :
    closeContext true ["hashtag_j1"] "profile_j2" = .ok ["hashtag_j1"] :=
  closeContext_unknown_noop true ["hashtag_j1"] "profile_j2" (by decide)

/-! ## Cap-and-dedup invariants of the hashtag strategies (C1) -/

/-- Appending a post whose shortcode the dedup guard rejected keeps the
shortcode list duplicate-free. -/
theorem nodup_push (posts : List PostData) (p : PostData)
    (h2 : (posts.map PostData.shortcode).Nodup)
    (hd : posts.any (fun q => q.shortcode == p.shortcode) = false) :
    ((posts ++ [p]).map PostData.shortcode).Nodup := by
  rw [List.map_append, List.map_cons, List.map_nil, List.nodup_append]
  refine ⟨h2, List.nodup_singleton _, ?_⟩
  intro a ha hb
  simp only [List.mem_singleton] at hb
  subst hb
  simp only [List.mem_map] at ha
  obtain ⟨q, hq, he⟩ := ha
  rw [List.any_eq_false] at hd
  exact hd q hq (by rw [he]; exact beq_self_eq_true _)

theorem processEdges_inv (limit : Nat) (es : List (Option PostData)) :
    ∀ posts : List PostData, posts.length ≤ limit →
      (posts.map PostData.shortcode).Nodup →
      (processEdges limit es posts).length ≤ limit ∧
        ((processEdges limit es posts).map PostData.shortcode).Nodup := by
  induction es with
  | nil => intro posts h1 h2; exact ⟨h1, h2⟩
  | cons e rest ih =>
    intro posts h1 h2
    unfold processEdges
    by_cases hlim : limit ≤ posts.length
    · rw [if_pos hlim]; exact ⟨h1, h2⟩
    · rw [if_neg hlim]
      match e with
      | none => exact ih posts h1 h2
      | some p =>
        dsimp only
        by_cases hdup : posts.any (fun q => q.shortcode == p.shortcode)
        · rw [if_pos hdup]; exact ih posts h1 h2
        · rw [if_neg hdup]
          apply ih
          · simpa using Nat.lt_of_not_le hlim
          · exact nodup_push posts p h2 (by simpa using hdup)

theorem processCapturedResponses_inv (limit : Nat) (rs : List CapturedResponse) :
    ∀ posts : List PostData, posts.length ≤ limit →
      (posts.map PostData.shortcode).Nodup →
      (processCapturedResponses limit rs posts).length ≤ limit ∧
        ((processCapturedResponses limit rs posts).map PostData.shortcode).Nodup := by
  induction rs with
  | nil => intro posts h1 h2; exact ⟨h1, h2⟩
  | cons r rest ih =>
    intro posts h1 h2
    unfold processCapturedResponses
    by_cases hlim : limit ≤ posts.length
    · rw [if_pos hlim]; exact ⟨h1, h2⟩
    · rw [if_neg hlim]
      match r with
      | none => exact ih posts h1 h2
      | some edges =>
        dsimp only
        obtain ⟨i1, i2⟩ := processEdges_inv limit edges posts h1 h2
        exact ih _ i1 i2

theorem extractCandidates_inv (limit : Nat) (cands : List String) :
    ∀ posts : List PostData, posts.length ≤ limit →
      (posts.map PostData.shortcode).Nodup →
      (extractCandidates limit cands posts).length ≤ limit ∧
        ((extractCandidates limit cands posts).map PostData.shortcode).Nodup := by
  induction cands with
  | nil => intro posts h1 h2; exact ⟨h1, h2⟩
  | cons sc rest ih =>
    intro posts h1 h2
    unfold extractCandidates
    by_cases hc : 5 < sc.length ∧ sc.length < 20 ∧
        ¬ posts.any (fun p => p.shortcode == sc)
    · rw [if_pos hc]
      by_cases hlim : limit ≤ posts.length
      · rw [if_pos hlim]; exact ⟨h1, h2⟩
      · rw [if_neg hlim]
        apply ih
        · simpa using Nat.lt_of_not_le hlim
        · exact nodup_push posts (extractHtmlPost sc) h2 (by simpa using hc.2.2)
    · rw [if_neg hc]; exact ih posts h1 h2

theorem extractFromHtml_inv (limit : Nat) (pats : List (List String)) :
    ∀ posts : List PostData, posts.length ≤ limit →
      (posts.map PostData.shortcode).Nodup →
      (extractFromHtml limit pats posts).length ≤ limit ∧
        ((extractFromHtml limit pats posts).map PostData.shortcode).Nodup := by
  induction pats with
  | nil => intro posts h1 h2; exact ⟨h1, h2⟩
  | cons pat rest ih =>
    intro posts h1 h2
    unfold extractFromHtml
    obtain ⟨i1, i2⟩ := extractCandidates_inv limit pat posts h1 h2
    by_cases hlim : limit ≤ (extractCandidates limit pat posts).length
    · rw [if_pos hlim]; exact ⟨i1, i2⟩
    · rw [if_neg hlim]; exact ih _ i1 i2

theorem paginationLoop_inv (env : PaginationEnv) (limit : Nat) (fuel : Nat) :
    ∀ (pageCount : Nat) (posts : List PostData) (cursor : Option String)
      (hasNext : Bool), posts.length ≤ limit →
      (posts.map PostData.shortcode).Nodup →
      (paginationLoop env limit fuel pageCount posts cursor hasNext).length ≤ limit ∧
        ((paginationLoop env limit fuel pageCount posts cursor hasNext).map
          PostData.shortcode).Nodup := by
  induction fuel with
  | zero => intro _ posts _ _ h1 h2; exact ⟨h1, h2⟩
  | succ fuel ih =>
    intro pageCount posts cursor hasNext h1 h2
    unfold paginationLoop
    by_cases hstop : limit ≤ posts.length ∨ hasNext = false
    · rw [if_pos hstop]; exact ⟨h1, h2⟩
    · rw [if_neg hstop]
      match combinedFetch env (pageCount + 1) with
      | none => exact ⟨h1, h2⟩
      | some r =>
        dsimp only
        by_cases hemp : r.edges.isEmpty
        · rw [if_pos hemp]; exact ⟨h1, h2⟩
        · rw [if_neg hemp]
          obtain ⟨i1, i2⟩ := processEdges_inv limit r.edges posts h1 h2
          by_cases hend : r.hasNextPage = false ∨
              (match r.endCursor with | some "" => none | x => x) = (none : Option String)
          · rw [if_pos hend]; exact ⟨i1, i2⟩
          · rw [if_neg hend]; exact ih _ _ _ _ i1 i2

theorem scrollLoop_inv (env : PaginationEnv) (limit : Nat) (fuel : Nat) :
    ∀ (scrollCount : Nat) (posts : List PostData) (noNew : Nat),
      posts.length ≤ limit → (posts.map PostData.shortcode).Nodup →
      (scrollLoop env limit fuel scrollCount posts noNew).length ≤ limit ∧
        ((scrollLoop env limit fuel scrollCount posts noNew).map
          PostData.shortcode).Nodup := by
  induction fuel with
  | zero => intro _ posts _ h1 h2; exact ⟨h1, h2⟩
  | succ fuel ih =>
    intro scrollCount posts noNew h1 h2
    unfold scrollLoop
    by_cases hlim : limit ≤ posts.length
    · rw [if_pos hlim]; exact ⟨h1, h2⟩
    · rw [if_neg hlim]
      obtain ⟨i1, i2⟩ := extractFromHtml_inv limit (env.scrollHtml scrollCount) posts h1 h2
      by_cases hstop : 5 ≤ (if posts.length <
          (extractFromHtml limit (env.scrollHtml scrollCount) posts).length then 0 else noNew + 1)
      · rw [if_pos hstop]; exact ⟨i1, i2⟩
      · rw [if_neg hstop]; exact ih _ _ _ i1 i2

/-- Taking a prefix preserves the bound and the dedup property. -/
theorem take_inv (limit : Nat) (posts : List PostData)
    (h2 : (posts.map PostData.shortcode).Nodup) :
    (posts.take limit).length ≤ limit ∧
      ((posts.take limit).map PostData.shortcode).Nodup := by
  constructor
  · rw [List.length_take]; exact min_le_left _ _
  · rw [List.map_take]
    exact h2.sublist (List.take_sublist _ _)

theorem handleResponses_inv (limit : Nat) (rs : List CapturedResponse) :
    ∀ posts : List PostData, posts.length ≤ limit →
      (posts.map PostData.shortcode).Nodup →
      (handleResponses limit rs posts).length ≤ limit ∧
        ((handleResponses limit rs posts).map PostData.shortcode).Nodup := by
  induction rs with
  | nil => intro posts h1 h2; exact ⟨h1, h2⟩
  | cons r rest ih =>
    intro posts h1 h2
    unfold handleResponses at ih ⊢
    rw [List.foldl_cons]
    obtain ⟨i1, i2⟩ := processCapturedResponses_inv limit [r] posts h1 h2
    exact ih _ i1 i2

theorem liveLoop_inv (env : LiveEnv) (limit : Nat) (fuel : Nat) :
    ∀ (scrollCount : Nat) (posts : List PostData) (lastCount noNew : Nat),
      posts.length ≤ limit → (posts.map PostData.shortcode).Nodup →
      (liveLoop env limit fuel scrollCount posts lastCount noNew).length ≤ limit ∧
        ((liveLoop env limit fuel scrollCount posts lastCount noNew).map
          PostData.shortcode).Nodup := by
  induction fuel with
  | zero => intro _ posts _ _ h1 h2; exact ⟨h1, h2⟩
  | succ fuel ih =>
    intro scrollCount posts lastCount noNew h1 h2
    unfold liveLoop
    by_cases hlim : limit ≤ posts.length
    · rw [if_pos hlim]; exact ⟨h1, h2⟩
    · rw [if_neg hlim]
      obtain ⟨i1, i2⟩ := handleResponses_inv limit (env.iterResponses scrollCount) posts h1 h2
      obtain ⟨j1, j2⟩ := extractFromHtml_inv limit (env.iterHtml scrollCount) _ i1 i2
      by_cases hstop : 5 ≤ (if (extractFromHtml limit (env.iterHtml scrollCount)
          (handleResponses limit (env.iterResponses scrollCount) posts)).length = lastCount
        then noNew + 1 else 0)
      · rw [if_pos hstop]; exact ⟨j1, j2⟩
      · rw [if_neg hstop]; exact ih _ _ _ _ j1 j2

theorem webInfoItems_inv (limit : Nat) (ms : List PostData) :
    ∀ posts : List PostData, posts.length ≤ limit →
      (posts.map PostData.shortcode).Nodup →
      (webInfoItems limit ms posts).length ≤ limit ∧
        ((webInfoItems limit ms posts).map PostData.shortcode).Nodup := by
  induction ms with
  | nil => intro posts h1 h2; exact ⟨h1, h2⟩
  | cons m rest ih =>
    intro posts h1 h2
    unfold webInfoItems
    by_cases hlim : limit ≤ posts.length
    · rw [if_pos hlim]; exact ⟨h1, h2⟩
    · rw [if_neg hlim]
      by_cases hc : m.shortcode ≠ "" ∧ ¬ posts.any (fun p => p.shortcode == m.shortcode)
      · rw [if_pos hc]
        apply ih
        · simpa using Nat.lt_of_not_le hlim
        · exact nodup_push posts m h2 (by simpa using hc.2)
      · rw [if_neg hc]; exact ih posts h1 h2

/-- Strategy 1 output obeys the cap and the dedup invariant. -/
theorem scrapeWithPagination_inv (env : PaginationEnv) (limit : Nat) :
    (scrapeWithPagination env limit).length ≤ limit ∧
      ((scrapeWithPagination env limit).map PostData.shortcode).Nodup := by
  unfold scrapeWithPagination
  have base : ∀ posts : List PostData, posts.length ≤ limit →
      (posts.map PostData.shortcode).Nodup →
      ((if posts.length < limit ∧ posts.length ≤ 15 then
          scrollFallback env limit posts
        else posts.take limit).length ≤ limit ∧
        (((if posts.length < limit ∧ posts.length ≤ 15 then
          scrollFallback env limit posts
        else posts.take limit)).map PostData.shortcode).Nodup) := by
    intro posts h1 h2
    by_cases hf : posts.length < limit ∧ posts.length ≤ 15
    · rw [if_pos hf]
      unfold scrollFallback
      obtain ⟨i1, i2⟩ := scrollLoop_inv env limit _ 0 posts 0 h1 h2
      exact take_inv limit _ i2
    · rw [if_neg hf]
      exact take_inv limit _ h2
  by_cases hg : env.gotoOk
  · rw [if_pos hg]
    obtain ⟨i1, i2⟩ := extractFromHtml_inv limit env.initialHtml [] (by simp) (by simp)
    obtain ⟨j1, j2⟩ := paginationLoop_inv env limit (MAX_PAGES limit) 0 _
      (match env.initialPageInfo with
        | some (ec, hn) => ((some ec : Option String), hn)
        | none => (none, true)).1
      (match env.initialPageInfo with
        | some (ec, hn) => ((some ec : Option String), hn)
        | none => (none, true)).2 i1 i2
    exact base _ j1 j2
  · rw [if_neg hg]
    exact base [] (by simp) (by simp)

/-- Strategy 2 output obeys the cap and the dedup invariant. -/
theorem scrapeViaLiveInterception_inv (env : LiveEnv) (limit : Nat) :
    (scrapeViaLiveInterception env limit).length ≤ limit ∧
      ((scrapeViaLiveInterception env limit).map PostData.shortcode).Nodup := by
  unfold scrapeViaLiveInterception
  have base : ∀ posts : List PostData, posts.length ≤ limit →
      (posts.map PostData.shortcode).Nodup →
      ((processCapturedResponses limit (allResponses env limit) posts).take limit).length ≤ limit ∧
        (((processCapturedResponses limit (allResponses env limit) posts).take limit).map
          PostData.shortcode).Nodup := by
    intro posts h1 h2
    obtain ⟨i1, i2⟩ := processCapturedResponses_inv limit (allResponses env limit) posts h1 h2
    exact take_inv limit _ i2
  by_cases hg : env.gotoOk
  · rw [if_pos hg]
    obtain ⟨i1, i2⟩ := handleResponses_inv limit env.navResponses [] (by simp) (by simp)
    obtain ⟨j1, j2⟩ := extractFromHtml_inv limit env.initialHtml _ i1 i2
    obtain ⟨k1, k2⟩ := liveLoop_inv env limit _ 0 _ _ 0 j1 j2
    exact base _ k1 k2
  · rw [if_neg hg]
    exact base [] (by simp) (by simp)

/-- Strategy 3 output obeys the cap and the dedup invariant. -/
theorem scrapeViaDocIdGraphQL_inv (response : Option CapturedResponse) (limit : Nat) :
    (scrapeViaDocIdGraphQL response limit).length ≤ limit ∧
      ((scrapeViaDocIdGraphQL response limit).map PostData.shortcode).Nodup := by
  unfold scrapeViaDocIdGraphQL
  match response with
  | none => simp
  | some none => simp
  | some (some edges) =>
    exact processCapturedResponses_inv limit [some edges] [] (by simp) (by simp)

/-- Strategy 4 output obeys the cap and the dedup invariant. -/
theorem scrapeViaWebInfoEndpoint_inv (sections : Option (List (List PostData)))
    (limit : Nat) :
    (scrapeViaWebInfoEndpoint sections limit).length ≤ limit ∧
      ((scrapeViaWebInfoEndpoint sections limit).map PostData.shortcode).Nodup := by
  unfold scrapeViaWebInfoEndpoint
  match sections with
  | none => simp
  | some secs =>
    dsimp only
    have : ∀ (ss : List (List PostData)) (posts : List PostData),
        posts.length ≤ limit → (posts.map PostData.shortcode).Nodup →
        (ss.foldl (fun ps sec => webInfoItems limit sec ps) posts).length ≤ limit ∧
          ((ss.foldl (fun ps sec => webInfoItems limit sec ps) posts).map
            PostData.shortcode).Nodup := by
      intro ss
      induction ss with
      | nil => intro posts h1 h2; exact ⟨h1, h2⟩
      | cons sec rest ih =>
        intro posts h1 h2
        rw [List.foldl_cons]
        obtain ⟨i1, i2⟩ := webInfoItems_inv limit sec posts h1 h2
        exact ih _ i1 i2
    exact this secs [] (by simp) (by simp)

/-- The chain returns one of the strategy outputs or the empty list. -/
theorem hashtagChain_posts_cases (s1 s2 s3 s4 : List PostData) (limit : Nat) :
    (hashtagChain s1 s2 s3 s4 limit).posts = s1 ∨
    (hashtagChain s1 s2 s3 s4 limit).posts = s2 ∨
    (hashtagChain s1 s2 s3 s4 limit).posts = s3 ∨
    (hashtagChain s1 s2 s3 s4 limit).posts = s4 ∨
    (hashtagChain s1 s2 s3 s4 limit).posts = [] := by
  unfold hashtagChain
  split_ifs <;> simp

/-- C1: for every limit and every hashtag input, a completed hashtag scrape
returns at most `limit` records, and the shortcodes of the returned records
are pairwise distinct. -/
theorem hashtag_scrape_capped_and_deduped (hashtag : String) (env : HashtagEnv)
    (limit : Nat) (r : EngineResult)
    (h : scrapeHashtag hashtag env limit = .ok r) :
    r.posts.length ≤ limit ∧ (r.posts.map PostData.shortcode).Nodup := by
  unfold scrapeHashtag at h
  revert h
  match sanitizeHashtag hashtag with
  | .error e => intro h; cases h
  | .ok _ =>
    intro h
    have hr : r = hashtagChain (scrapeWithPagination env.pag limit)
        (scrapeViaLiveInterception env.live limit)
        (scrapeViaDocIdGraphQL env.docId limit)
        (scrapeViaWebInfoEndpoint env.webInfo limit) limit := by
      cases h; rfl
    subst hr
    rcases hashtagChain_posts_cases (scrapeWithPagination env.pag limit)
        (scrapeViaLiveInterception env.live limit)
        (scrapeViaDocIdGraphQL env.docId limit)
        (scrapeViaWebInfoEndpoint env.webInfo limit) limit with
      hc | hc | hc | hc | hc <;> rw [hc]
    · exact scrapeWithPagination_inv env.pag limit
    · exact scrapeViaLiveInterception_inv env.live limit
    · exact scrapeViaDocIdGraphQL_inv env.docId limit
    · exact scrapeViaWebInfoEndpoint_inv env.webInfo limit
    · simp

/-- Witness for C1: the empty environment at limit 5 completes with an empty,
trivially capped and deduplicated result. -/
theorem hashtag_scrape_capped_and_deduped_witness :
    (EngineResult.mk [] [1, 2, 3, 4]).posts.length ≤ 5 ∧
      ((EngineResult.mk [] [1, 2, 3, 4]).posts.map PostData.shortcode).Nodup :=
  hashtag_scrape_capped_and_deduped "tag" emptyHashtagEnv 5 ⟨[], [1, 2, 3, 4]⟩
    (by rfl)

/-! ## Strategy ordering of the hashtag engine (C2) -/

/-- At limit 0 strategy 2 returns nothing (its result is sliced to the
limit). -/
theorem scrapeViaLiveInterception_limit_zero (env : LiveEnv) :
    scrapeViaLiveInterception env 0 = [] := by
  unfold scrapeViaLiveInterception
  simp

/-- Acceptance analysis of the chain, case by case. -/
theorem hashtagChain_strict_order (s1 s2 s3 s4 : List PostData) (limit : Nat) :
    ((hashtagChain s1 s2 s3 s4 limit).invoked = [1] ↔ 7 * limit ≤ 10 * s1.length) ∧
    (7 * limit ≤ 10 * s1.length → (hashtagChain s1 s2 s3 s4 limit).posts = s1) ∧
    ((hashtagChain s1 s2 s3 s4 limit).invoked = [1, 2] ↔
      ¬ 7 * limit ≤ 10 * s1.length ∧ 0 < s2.length) ∧
    (¬ 7 * limit ≤ 10 * s1.length → 0 < s2.length →
      (hashtagChain s1 s2 s3 s4 limit).posts = s2) ∧
    ((hashtagChain s1 s2 s3 s4 limit).invoked = [1, 2, 3] ↔
      ¬ 7 * limit ≤ 10 * s1.length ∧ s2.length = 0 ∧ 0 < s3.length) ∧
    (¬ 7 * limit ≤ 10 * s1.length → s2.length = 0 → 0 < s3.length →
      (hashtagChain s1 s2 s3 s4 limit).posts = s3) ∧
    ((hashtagChain s1 s2 s3 s4 limit).invoked = [1, 2, 3, 4] ↔
      ¬ 7 * limit ≤ 10 * s1.length ∧ s2.length = 0 ∧ s3.length = 0) ∧
    (¬ 7 * limit ≤ 10 * s1.length → s2.length = 0 → s3.length = 0 →
      (0 < s4.length → (hashtagChain s1 s2 s3 s4 limit).posts = s4) ∧
      (s4.length = 0 → (hashtagChain s1 s2 s3 s4 limit).posts = [])) := by
  unfold hashtagChain
  split_ifs with h1 h2 h3 h4 <;>
    refine ⟨?_, ?_, ?_, ?_, ?_, ?_, ?_, ?_⟩ <;>
    simp_all [List.length_pos, List.length_eq_zero]

/-- C2: the engine tries its strategies strictly in order — strategy 1 is
returned iff it has at least 70% of `limit` records, each later strategy iff
it is nonempty — and in particular when strategy 1 collects nothing while
strategy 2 collects K > 0 records, the engine output equals strategy 2's
output exactly and strategies 3 and 4 are never invoked. -/
theorem hashtag_fallback_ordering (s1 s2 s3 s4 : List PostData) (limit : Nat) :
    (((hashtagChain s1 s2 s3 s4 limit).invoked = [1] ↔ 7 * limit ≤ 10 * s1.length) ∧
    (7 * limit ≤ 10 * s1.length → (hashtagChain s1 s2 s3 s4 limit).posts = s1) ∧
    ((hashtagChain s1 s2 s3 s4 limit).invoked = [1, 2] ↔
      ¬ 7 * limit ≤ 10 * s1.length ∧ 0 < s2.length) ∧
    (¬ 7 * limit ≤ 10 * s1.length → 0 < s2.length →
      (hashtagChain s1 s2 s3 s4 limit).posts = s2) ∧
    ((hashtagChain s1 s2 s3 s4 limit).invoked = [1, 2, 3] ↔
      ¬ 7 * limit ≤ 10 * s1.length ∧ s2.length = 0 ∧ 0 < s3.length) ∧
    (¬ 7 * limit ≤ 10 * s1.length → s2.length = 0 → 0 < s3.length →
      (hashtagChain s1 s2 s3 s4 limit).posts = s3) ∧
    ((hashtagChain s1 s2 s3 s4 limit).invoked = [1, 2, 3, 4] ↔
      ¬ 7 * limit ≤ 10 * s1.length ∧ s2.length = 0 ∧ s3.length = 0) ∧
    (¬ 7 * limit ≤ 10 * s1.length → s2.length = 0 → s3.length = 0 →
      (0 < s4.length → (hashtagChain s1 s2 s3 s4 limit).posts = s4) ∧
      (s4.length = 0 → (hashtagChain s1 s2 s3 s4 limit).posts = []))) ∧
    (∀ (hashtag : String) (env : HashtagEnv) (r : EngineResult),
      scrapeHashtag hashtag env limit = .ok r →
      scrapeWithPagination env.pag limit = [] →
      scrapeViaLiveInterception env.live limit ≠ [] →
      r.posts = scrapeViaLiveInterception env.live limit ∧ r.invoked = [1, 2]) := by
  refine ⟨hashtagChain_strict_order s1 s2 s3 s4 limit, ?_⟩
  intro hashtag env r h hemptyOne hliveNe
  have hr : r = hashtagChain (scrapeWithPagination env.pag limit)
      (scrapeViaLiveInterception env.live limit)
      (scrapeViaDocIdGraphQL env.docId limit)
      (scrapeViaWebInfoEndpoint env.webInfo limit) limit := by
    unfold scrapeHashtag at h
    revert h
    match sanitizeHashtag hashtag with
    | .error e => intro h; cases h
    | .ok _ => intro h; cases h; rfl
  subst hr
  have hl0 : limit ≠ 0 := by
    intro h0
    subst h0
    exact hliveNe (scrapeViaLiveInterception_limit_zero env.live)
  have hthr : ¬ 7 * limit ≤ 10 * (scrapeWithPagination env.pag limit).length := by
    rw [hemptyOne]
    simp
    omega
  have hpos : 0 < (scrapeViaLiveInterception env.live limit).length :=
    List.length_pos.mpr hliveNe
  obtain ⟨_, _, hiff, hposts, _⟩ := hashtagChain_strict_order
    (scrapeWithPagination env.pag limit) (scrapeViaLiveInterception env.live limit)
    (scrapeViaDocIdGraphQL env.docId limit) (scrapeViaWebInfoEndpoint env.webInfo limit)
    limit
  exact ⟨hposts hthr hpos, hiff.mpr ⟨hthr, hpos⟩⟩

/-! ## Proxy pool lemmas (C4) -/

theorem failBump_failCount (q : ProxyConfig) :
    (failBump q).failCount = q.failCount + 1 := by
  unfold failBump
  split_ifs <;> rfl

theorem failBump_key (q : ProxyConfig) :
    (failBump q).host = q.host ∧ (failBump q).port = q.port := by
  unfold failBump
  split_ifs <;> exact ⟨rfl, rfl⟩

theorem failBump_keeps_inactive (q : ProxyConfig) (h : q.isActive = false) :
    (failBump q).isActive = false := by
  unfold failBump
  split_ifs <;> simp [h]

/-- Three failure bumps yield an inactive endpoint with three more recorded
failures. -/
theorem failBump_three (q : ProxyConfig) :
    failBump (failBump (failBump q)) =
      { host := q.host, port := q.port, isActive := false,
        failCount := q.failCount + 3 } := by
  unfold failBump
  split_ifs <;> simp_all

/-- `updateFirstProxy` rewrites exactly the entry `find?` designates, for any
key-preserving per-entry function. -/
theorem findProxy_updateFirst (host : String) (port : Nat)
    (f : ProxyConfig → ProxyConfig)
    (hf : ∀ q, (f q).host = q.host ∧ (f q).port = q.port) :
    ∀ ps : List ProxyConfig,
      findProxy (updateFirstProxy host port f ps) host port =
        (findProxy ps host port).map f := by
  intro ps
  induction ps with
  | nil => rfl
  | cons p rest ih =>
    unfold updateFirstProxy findProxy
    by_cases hp : p.host == host && p.port == port
    · rw [if_pos hp]
      have hfp : ((f p).host == host && (f p).port == port) = true := by
        rw [(hf p).1, (hf p).2]; exact hp
      simp only [List.find?]
      rw [hfp, hp]
      rfl
    · rw [if_neg hp]
      have hb : (p.host == host && p.port == port) = false := by
        simpa using hp
      simp only [List.find?]
      rw [hb]
      exact ih

/-- Key-based exclusion survives a first-match update whose function either
preserves inactivity or targets a different key. -/
theorem excluded_preserved_update (host : String) (port : Nat) (h2 : String)
    (p2 : Nat) (f : ProxyConfig → ProxyConfig)
    (hf : ∀ q, (f q).host = q.host ∧ (f q).port = q.port)
    (hcase : (∀ q, q.isActive = false → (f q).isActive = false) ∨
      ¬(h2 = host ∧ p2 = port)) :
    ∀ ps : List ProxyConfig,
      (∀ q ∈ ps, q.host = host → q.port = port → q.isActive = false) →
      ∀ q ∈ updateFirstProxy h2 p2 f ps, q.host = host → q.port = port →
        q.isActive = false := by
  intro ps
  induction ps with
  | nil => intro _ q hq; cases hq
  | cons p rest ih =>
    intro hex q hq hqh hqp
    unfold updateFirstProxy at hq
    by_cases hp : p.host == h2 && p.port == p2
    · rw [if_pos hp] at hq
      rcases List.mem_cons.mp hq with hq | hq
      · subst hq
        rcases hcase with hinact | hne
        · exact hinact p (hex p (List.mem_cons_self _ _)
            (by rw [← (hf p).1]; exact hqh) (by rw [← (hf p).2]; exact hqp))
        · exfalso
          apply hne
          have hp3 := hp
          simp only [Bool.and_eq_true, beq_iff_eq] at hp3
          have e1 : p.host = h2 := hp3.1
          have e2 : p.port = p2 := hp3.2
          constructor
          · rw [← e1, ← (hf p).1, hqh]
          · rw [← e2, ← (hf p).2, hqp]
      · exact hex q (List.mem_cons_of_mem _ hq) hqh hqp
    · rw [if_neg hp] at hq
      rcases List.mem_cons.mp hq with hq | hq
      · subst hq
        exact hex q (List.mem_cons_self _ _) hqh hqp
      · exact ih (fun q2 hq2 => hex q2 (List.mem_cons_of_mem _ hq2)) q hq hqh hqp

/-- After three consecutive failures, with pool keys pairwise distinct, every
entry carrying the failed key is inactive. -/
theorem excluded_after_three (s : ProxyState) (host : String) (port : Nat)
    (wf : (s.proxies.map proxyKey).Nodup) :
    ∀ q ∈ (afterThreeFailures s host port).proxies, q.host = host →
      q.port = port → q.isActive = false := by
  have main : ∀ ps : List ProxyConfig, (ps.map proxyKey).Nodup →
      ∀ q ∈ updateFirstProxy host port failBump
        (updateFirstProxy host port failBump
          (updateFirstProxy host port failBump ps)),
        q.host = host → q.port = port → q.isActive = false := by
    intro ps
    induction ps with
    | nil => intro _ q hq; cases hq
    | cons p rest ih =>
      intro wf q hq hqh hqp
      by_cases hp : p.host == host && p.port == port
      · have e1 : updateFirstProxy host port failBump (p :: rest) =
            failBump p :: rest := by
          unfold updateFirstProxy; rw [if_pos hp]
        have hp2 : ((failBump p).host == host && (failBump p).port == port) = true := by
          rw [(failBump_key p).1, (failBump_key p).2]; exact hp
        have e2 : updateFirstProxy host port failBump (failBump p :: rest) =
            failBump (failBump p) :: rest := by
          unfold updateFirstProxy; rw [if_pos hp2]
        have hp3 : ((failBump (failBump p)).host == host &&
            (failBump (failBump p)).port == port) = true := by
          rw [(failBump_key (failBump p)).1, (failBump_key (failBump p)).2]; exact hp2
        have e3 : updateFirstProxy host port failBump (failBump (failBump p) :: rest) =
            failBump (failBump (failBump p)) :: rest := by
          unfold updateFirstProxy; rw [if_pos hp3]
        rw [e1, e2, e3] at hq
        rcases List.mem_cons.mp hq with hq | hq
        · subst hq
          rw [failBump_three]
        · exfalso
          have hkey : proxyKey q ∈ rest.map proxyKey := List.mem_map_of_mem _ hq
          have hp4 := hp
          simp only [Bool.and_eq_true, beq_iff_eq] at hp4
          have hpk : p.host = host := hp4.1
          have hpp : p.port = port := hp4.2
          have hsame : proxyKey p = proxyKey q := by
            unfold proxyKey; rw [hpk, hpp, hqh, hqp]
          rw [List.map_cons, List.nodup_cons] at wf
          exact wf.1 (hsame ▸ hkey)
      · have e1 : ∀ l, updateFirstProxy host port failBump (p :: l) =
            p :: updateFirstProxy host port failBump l := by
          intro l
          conv_lhs => unfold updateFirstProxy
          rw [if_neg hp]
        rw [e1, e1, e1] at hq
        rcases List.mem_cons.mp hq with hq | hq
        · subst hq
          exfalso
          apply hp
          rw [hqh, hqp]
          simp
        · rw [List.map_cons, List.nodup_cons] at wf
          exact ih wf.2 q hq hqh hqp
  exact main s.proxies wf

theorem findAvailable_mem (s : ProxyState) (active : List ProxyConfig) :
    ∀ (fuel i index : Nat) (p : ProxyConfig),
      findAvailable s active fuel i = some (index, p) → p ∈ active := by
  intro fuel
  induction fuel with
  | zero => intro i index p h; cases h
  | succ fuel ih =>
    intro i index p h
    unfold findAvailable at h
    split at h
    · cases h
    · split at h
      · cases h
        next hg _ =>
          exact List.get?_mem hg
      · exact ih _ _ _ h

/-- A proxy handed out by `getNextProxy` is an active member of the pool. -/
theorem getNextProxy_some_active (s : ProxyState) (p : ProxyConfig)
    (h : (getNextProxy s).1 = some p) : p ∈ s.proxies ∧ p.isActive = true := by
  unfold getNextProxy at h
  have hmem : p ∈ activeProxies s := by
    split at h
    · cases h
    · split at h
      · next index p2 hf =>
        cases h
        exact findAvailable_mem s _ _ _ _ _ hf
      · split at h
        · cases h
        · next p2 hh =>
          cases h
          exact List.mem_of_mem_head? hh
  have hf := List.mem_filter.mp (by simpa [activeProxies] using hmem)
  exact ⟨hf.1, by simpa using hf.2⟩

/-- `getNextProxy` never changes the endpoint records. -/
theorem getNextProxy_proxies (s : ProxyState) :
    (getNextProxy s).2.proxies = s.proxies := by
  unfold getNextProxy
  split
  · rfl
  · split
    · rfl
    · split <;> rfl

/-- Exclusion is preserved by every pool operation other than a reset of the
excluded key, and every `next` output avoids the excluded key. -/
theorem runProxyOps_excluded (host : String) (port : Nat) :
    ∀ (ops : List ProxyOp) (s : ProxyState),
      (∀ q ∈ s.proxies, q.host = host → q.port = port → q.isActive = false) →
      (∀ op ∈ ops, op ≠ ProxyOp.reset host port) →
      ∀ r ∈ (runProxyOps s ops).2, ∀ pc, r = some pc →
        ¬(pc.host = host ∧ pc.port = port) := by
  intro ops
  induction ops with
  | nil => intro s _ _ r hr; cases hr
  | cons op rest ih =>
    intro s hex hops r hr pc hpc hkey
    match op with
    | .next =>
      unfold runProxyOps at hr
      dsimp only at hr
      rcases List.mem_cons.mp hr with hr | hr
      · subst hr
        obtain ⟨hm, ha⟩ := getNextProxy_some_active s pc hpc
        rw [hex pc hm hkey.1 hkey.2] at ha
        cases ha
      · refine ih (getNextProxy s).2 ?_
          (fun o ho => hops o (List.mem_cons_of_mem _ ho)) r hr pc hpc hkey
        rw [getNextProxy_proxies]
        exact hex
    | .fail h2 p2 =>
      unfold runProxyOps at hr
      refine ih _ ?_ (fun o ho => hops o (List.mem_cons_of_mem _ ho)) r hr pc hpc hkey
      exact excluded_preserved_update host port h2 p2 failBump failBump_key
        (Or.inl failBump_keeps_inactive) s.proxies hex
    | .success h2 p2 =>
      unfold runProxyOps at hr
      refine ih _ ?_ (fun o ho => hops o (List.mem_cons_of_mem _ ho)) r hr pc hpc hkey
      exact excluded_preserved_update host port h2 p2
        (fun q => { q with failCount := 0 }) (fun q => ⟨rfl, rfl⟩)
        (Or.inl (fun q hq => hq)) s.proxies hex
    | .reset h2 p2 =>
      unfold runProxyOps at hr
      have hne : ¬(h2 = host ∧ p2 = port) := by
        intro he
        exact hops (ProxyOp.reset h2 p2) (List.mem_cons_self _ _)
          (by rw [he.1, he.2])
      refine ih _ ?_ (fun o ho => hops o (List.mem_cons_of_mem _ ho)) r hr pc hpc hkey
      exact excluded_preserved_update host port h2 p2
        (fun q => { q with isActive := true, failCount := 0 }) (fun q => ⟨rfl, rfl⟩)
        (Or.inr hne) s.proxies hex

/-- C4: three consecutive failure reports with no intervening success drive
an endpoint to `failCount ≥ 3` with `active = false`; it is then excluded
from every subsequent `getNextProxy` result until `resetProxy` is called for
it; a reset reactivates it and zeroes its failure count. -/
theorem proxy_three_failures_excluded (s : ProxyState) (host : String)
    (port : Nat) (q : ProxyConfig)
    (wf : (s.proxies.map proxyKey).Nodup)
    (hq : findProxy s.proxies host port = some q) :
    (findProxy (afterThreeFailures s host port).proxies host port =
        some { host := q.host, port := q.port, isActive := false,
               failCount := q.failCount + 3 } ∧
      3 ≤ q.failCount + 3) ∧
    (∀ ops : List ProxyOp, (∀ op ∈ ops, op ≠ ProxyOp.reset host port) →
      ∀ r ∈ (runProxyOps (afterThreeFailures s host port) ops).2, ∀ pc,
        r = some pc → ¬(pc.host = host ∧ pc.port = port)) ∧
    (∀ (s2 : ProxyState) (q2 : ProxyConfig),
      findProxy s2.proxies host port = some q2 →
      findProxy (resetProxy s2 host port).proxies host port =
        some { host := q2.host, port := q2.port, isActive := true,
               failCount := 0 }) := by
  refine ⟨⟨?_, by omega⟩, ?_, ?_⟩
  · show findProxy (updateFirstProxy host port failBump
      (updateFirstProxy host port failBump
        (updateFirstProxy host port failBump s.proxies))) host port = _
    rw [findProxy_updateFirst host port failBump failBump_key,
      findProxy_updateFirst host port failBump failBump_key,
      findProxy_updateFirst host port failBump failBump_key, hq]
    show some (failBump (failBump (failBump q))) = _
    rw [failBump_three]
  · intro ops hops
    exact runProxyOps_excluded host port ops _ (excluded_after_three s host port wf) hops
  · intro s2 q2 hq2
    show findProxy (updateFirstProxy host port
      (fun q => { q with isActive := true, failCount := 0 }) s2.proxies) host port = _
    rw [findProxy_updateFirst host port
      (fun q => { q with isActive := true, failCount := 0 }) (fun q => ⟨rfl, rfl⟩), hq2]
    rfl

/-- Witness for C4 on a concrete two-endpoint pool. -/
theorem proxy_three_failures_excluded_witness :
    findProxy (afterThreeFailures twoProxyState "p1" 8080).proxies "p1" 8080 =
      some { host := "p1", port := 8080, isActive := false, failCount := 3 } :=
  ((proxy_three_failures_excluded twoProxyState "p1" 8080
    { host := "p1", port := 8080, isActive := true, failCount := 0 }
    (by decide) (by decide)).1).1

/-! ## Search accumulator invariants (C5) -/

/-- Appending a post whose shortcode escaped the seen-set keeps the
accumulator capped, duplicate-free and seen-covered. -/
theorem searchAcc_push (resultLimit : Nat) (acc : SearchAcc) (p : PostData)
    (_h1 : acc.posts.length ≤ resultLimit)
    (h2 : (acc.posts.map PostData.shortcode).Nodup)
    (h3 : ∀ sc ∈ acc.posts.map PostData.shortcode, sc ∈ acc.seen)
    (hlt : acc.posts.length < resultLimit)
    (hseen : acc.seen.contains p.shortcode = false) :
    (acc.posts ++ [p]).length ≤ resultLimit ∧
      ((acc.posts ++ [p]).map PostData.shortcode).Nodup ∧
      (∀ sc ∈ (acc.posts ++ [p]).map PostData.shortcode,
        sc ∈ acc.seen ++ [p.shortcode]) := by
  have hnot : p.shortcode ∉ acc.seen := by simpa using hseen
  refine ⟨by simpa using hlt, ?_, ?_⟩
  · rw [List.map_append, List.map_cons, List.map_nil, List.nodup_append]
    refine ⟨h2, List.nodup_singleton _, ?_⟩
    intro a ha hb
    simp only [List.mem_singleton] at hb
    subst hb
    exact hnot (h3 _ ha)
  · intro sc hsc
    rw [List.map_append] at hsc
    rcases List.mem_append.mp hsc with hsc | hsc
    · exact List.mem_append_left _ (h3 _ hsc)
    · simp only [List.map_cons, List.map_nil, List.mem_singleton] at hsc
      subst hsc
      simp

theorem addPostsDedup_inv (resultLimit : Nat) (ps : List PostData) :
    ∀ acc : SearchAcc, acc.posts.length ≤ resultLimit →
      (acc.posts.map PostData.shortcode).Nodup →
      (∀ sc ∈ acc.posts.map PostData.shortcode, sc ∈ acc.seen) →
      ((addPostsDedup resultLimit ps acc).posts.length ≤ resultLimit ∧
        ((addPostsDedup resultLimit ps acc).posts.map PostData.shortcode).Nodup ∧
        (∀ sc ∈ (addPostsDedup resultLimit ps acc).posts.map PostData.shortcode,
          sc ∈ (addPostsDedup resultLimit ps acc).seen)) := by
  induction ps with
  | nil => intro acc h1 h2 h3; exact ⟨h1, h2, h3⟩
  | cons p rest ih =>
    intro acc h1 h2 h3
    unfold addPostsDedup
    by_cases hlim : resultLimit ≤ acc.posts.length
    · rw [if_pos hlim]; exact ⟨h1, h2, h3⟩
    · rw [if_neg hlim]
      by_cases hseen : acc.seen.contains p.shortcode
      · rw [if_pos hseen]; exact ih acc h1 h2 h3
      · rw [if_neg hseen]
        obtain ⟨i1, i2, i3⟩ := searchAcc_push resultLimit acc p h1 h2 h3
          (Nat.lt_of_not_le hlim) (by simpa using hseen)
        exact ih _ i1 i2 i3

theorem addExplorePosts_inv (resultLimit : Nat) (terms : List (List Char))
    (ps : List PostData) :
    ∀ acc : SearchAcc, acc.posts.length ≤ resultLimit →
      (acc.posts.map PostData.shortcode).Nodup →
      (∀ sc ∈ acc.posts.map PostData.shortcode, sc ∈ acc.seen) →
      ((addExplorePosts resultLimit terms ps acc).posts.length ≤ resultLimit ∧
        ((addExplorePosts resultLimit terms ps acc).posts.map PostData.shortcode).Nodup ∧
        (∀ sc ∈ (addExplorePosts resultLimit terms ps acc).posts.map PostData.shortcode,
          sc ∈ (addExplorePosts resultLimit terms ps acc).seen)) := by
  induction ps with
  | nil => intro acc h1 h2 h3; exact ⟨h1, h2, h3⟩
  | cons p rest ih =>
    intro acc h1 h2 h3
    unfold addExplorePosts
    by_cases hlim : resultLimit ≤ acc.posts.length
    · rw [if_pos hlim]; exact ⟨h1, h2, h3⟩
    · rw [if_neg hlim]
      by_cases hseen : acc.seen.contains p.shortcode
      · rw [if_pos hseen]; exact ih acc h1 h2 h3
      · rw [if_neg hseen]
        by_cases hok : terms.any (fun t =>
            containsSub (p.caption.toList.map Char.toLower) t ||
              (p.hashtags.map (fun h => h.toList.map Char.toLower)).any
                (fun h => containsSub h t))
        · rw [if_pos hok]
          obtain ⟨i1, i2, i3⟩ := searchAcc_push resultLimit acc p h1 h2 h3
            (Nat.lt_of_not_le hlim) (by simpa using hseen)
          exact ih _ i1 i2 i3
        · rw [if_neg hok]
          exact ih acc h1 h2 h3

theorem searchTermLoop_inv (env : SearchEnv) (o : SearchOracle)
    (resultLimit : Nat) (n : Nat) :
    ∀ (i : Nat) (acc : SearchAcc), acc.posts.length ≤ resultLimit →
      (acc.posts.map PostData.shortcode).Nodup →
      (∀ sc ∈ acc.posts.map PostData.shortcode, sc ∈ acc.seen) →
      ((searchTermLoop env o resultLimit n i acc).1.posts.length ≤ resultLimit ∧
        ((searchTermLoop env o resultLimit n i acc).1.posts.map PostData.shortcode).Nodup ∧
        (∀ sc ∈ (searchTermLoop env o resultLimit n i acc).1.posts.map PostData.shortcode,
          sc ∈ (searchTermLoop env o resultLimit n i acc).1.seen)) := by
  induction n with
  | zero => intro i acc h1 h2 h3; exact ⟨h1, h2, h3⟩
  | succ n ih =>
    intro i acc h1 h2 h3
    unfold searchTermLoop
    by_cases hlim : resultLimit ≤ acc.posts.length
    · rw [if_pos hlim]; exact ⟨h1, h2, h3⟩
    · rw [if_neg hlim]
      by_cases hacq : o.termAcquireOk i = false
      · rw [if_pos hacq]; exact ⟨h1, h2, h3⟩
      · rw [if_neg hacq]
        match env.hashtagResult i with
        | none => exact ih _ acc h1 h2 h3
        | some ps =>
          dsimp only
          obtain ⟨i1, i2, i3⟩ := addPostsDedup_inv resultLimit ps acc h1 h2 h3
          exact ih _ _ i1 i2 i3

theorem searchPhase2_inv (terms : List (List Char)) (resultLimit : Nat)
    (env : SearchEnv) (o : SearchOracle) (acc : SearchAcc)
    (h1 : acc.posts.length ≤ resultLimit)
    (h2 : (acc.posts.map PostData.shortcode).Nodup)
    (h3 : ∀ sc ∈ acc.posts.map PostData.shortcode, sc ∈ acc.seen) :
    ((searchPhase2 terms resultLimit env o acc).1.posts.length ≤ resultLimit ∧
      ((searchPhase2 terms resultLimit env o acc).1.posts.map PostData.shortcode).Nodup ∧
      (∀ sc ∈ (searchPhase2 terms resultLimit env o acc).1.posts.map PostData.shortcode,
        sc ∈ (searchPhase2 terms resultLimit env o acc).1.seen)) := by
  unfold searchPhase2
  split_ifs <;> try exact ⟨h1, h2, h3⟩
  match env.exploreResult with
  | none => exact ⟨h1, h2, h3⟩
  | some ps => exact addExplorePosts_inv resultLimit terms ps acc h1 h2 h3

theorem searchPhase3_inv (resultLimit : Nat) (env : SearchEnv)
    (o : SearchOracle) (acc : SearchAcc)
    (h1 : acc.posts.length ≤ resultLimit)
    (h2 : (acc.posts.map PostData.shortcode).Nodup)
    (h3 : ∀ sc ∈ acc.posts.map PostData.shortcode, sc ∈ acc.seen) :
    ((searchPhase3 resultLimit env o acc).1.posts.length ≤ resultLimit ∧
      ((searchPhase3 resultLimit env o acc).1.posts.map PostData.shortcode).Nodup ∧
      (∀ sc ∈ (searchPhase3 resultLimit env o acc).1.posts.map PostData.shortcode,
        sc ∈ (searchPhase3 resultLimit env o acc).1.seen)) := by
  unfold searchPhase3
  split_ifs <;> try exact ⟨h1, h2, h3⟩
  match env.reelResult with
  | none => exact ⟨h1, h2, h3⟩
  | some ps => exact addPostsDedup_inv resultLimit ps acc h1 h2 h3

/-- C5 (amended): the global search result is capped at `resultLimit` and
never contains a shortcode more than once — duplicates across the three
sub-strategies are always rejected by the shared seen-set. -/
theorem search_result_capped_and_deduped (keyword : String)
    (searchLimit resultLimit : Nat) (env : SearchEnv) (o : SearchOracle) :
    (searchPostsByCaption keyword searchLimit resultLimit env o).1.length ≤ resultLimit ∧
      ((searchPostsByCaption keyword searchLimit resultLimit env o).1.map
        PostData.shortcode).Nodup := by
  obtain ⟨a1, a2, a3⟩ := searchTermLoop_inv env o resultLimit
    (searchTerms keyword).length 0 ⟨[], []⟩ (by simp) (by simp) (by simp)
  obtain ⟨b1, b2, b3⟩ := searchPhase2_inv (searchTerms keyword) resultLimit env o
    (searchTermLoop env o resultLimit (searchTerms keyword).length 0 ⟨[], []⟩).1 a1 a2 a3
  obtain ⟨c1, c2, c3⟩ := searchPhase3_inv resultLimit env o
    (searchPhase2 (searchTerms keyword) resultLimit env o
      (searchTermLoop env o resultLimit (searchTerms keyword).length 0 ⟨[], []⟩).1).1 b1 b2 b3
  unfold searchPostsByCaption
  split_ifs
  · simp
  · exact ⟨a1, a2⟩
  · exact ⟨b1, b2⟩
  · exact ⟨c1, c2⟩

/-- C5 (counterexample): with `resultLimit = 1`, shortcode "ABC123" is
surfaced independently by the hashtag-expansion and the explore
sub-strategies, yet the final result contains it zero times, not exactly
once — the cap was reached first. -/
theorem search_dedup_exactly_once_counterexample :
    "ABC123" ∈ ((cSearchEnv.hashtagResult 0).getD []).map PostData.shortcode ∧
    "ABC123" ∈ (cSearchEnv.exploreResult.getD []).map PostData.shortcode ∧
    ((searchPostsByCaption "k" 10 1 cSearchEnv okSearchOracle).1.map
      PostData.shortcode).count "ABC123" = 0 ∧
    ¬ ((searchPostsByCaption "k" 10 1 cSearchEnv okSearchOracle).1.map
      PostData.shortcode).count "ABC123" = 1 := by
  refine ⟨by decide, by decide, ?_, ?_⟩ <;> decide

/-! ## Rate limiter cooldown behavior (C6) -/

/-- An active cooldown makes the gate sleep exactly its remainder. -/
theorem cooldownGate_active (s : RateState) (now : ℚ)
    (h1 : s.isInCooldown = true) (h2 : now < s.cooldownUntil) :
    cooldownGate s now =
      ({ s with isInCooldown := false }, s.cooldownUntil, [s.cooldownUntil - now]) := by
  unfold cooldownGate
  rw [if_pos ⟨by rw [h1], h2⟩]

/-- C6 (amended): a reported 429 enters a 5-minute cooldown and a reported
401/403 a 1-minute cooldown; the session cache is untouched by every report
(the rate limiter sends no invalidation signal); and a subsequent
`waitBeforeRequest` first sleeps out the remainder of an active cooldown
(clearing the flag) before anything else. -/
theorem rate_controller_cooldowns (s : RateAuthState) (now : ℚ) :
    ((reportErrorSys s (some 429) now).rate.isInCooldown = true ∧
      (reportErrorSys s (some 429) now).rate.cooldownUntil = now + 5 * 60 * 1000) ∧
    ((reportErrorSys s (some 401) now).rate.isInCooldown = true ∧
      (reportErrorSys s (some 401) now).rate.cooldownUntil = now + 60 * 1000) ∧
    ((reportErrorSys s (some 403) now).rate.isInCooldown = true ∧
      (reportErrorSys s (some 403) now).rate.cooldownUntil = now + 60 * 1000) ∧
    (∀ code : Option Nat, (reportErrorSys s code now).auth = s.auth) ∧
    (∀ (cfg : RateConfig) (s2 : RateState) (now2 : ℚ) (o : DelayOracle),
      s2.isInCooldown = true → now2 < s2.cooldownUntil →
      (waitBeforeRequest cfg s2 now2 o).2.2.head? = some (s2.cooldownUntil - now2) ∧
        (cooldownGate s2 now2).1.isInCooldown = false) := by
  refine ⟨⟨rfl, rfl⟩, ⟨rfl, rfl⟩, ⟨rfl, rfl⟩, fun code => rfl, ?_⟩
  intro cfg s2 now2 o h1 h2
  constructor
  · show ((cooldownGate s2 now2).2.2 ++ _).head? = _
    rw [cooldownGate_active s2 now2 h1 h2]
    rfl
  · rw [cooldownGate_active s2 now2 h1 h2]

/-- C6 (counterexample): reporting a 403 to the rate controller does not
invalidate the cached session — the session cache is left exactly as it was,
whereas an `invalidateSession` signal would have cleared it. -/
theorem report_error_no_session_invalidation :
    (reportErrorSys cRateAuthState (some 403) 0).auth.cachedSessionId = some "sess" ∧
    invalidateSession cRateAuthState.auth ≠ (reportErrorSys cRateAuthState (some 403) 0).auth := by
  exact ⟨rfl, by decide⟩

/-! ## Empty result is a successful result (C7) -/

/-- The chain over four empty strategy results returns no posts. -/
theorem hashtagChain_empty (limit : Nat) :
    (hashtagChain [] [] [] [] limit).posts = [] := by
  unfold hashtagChain
  split_ifs <;> rfl

/-- C7: for a syntactically valid hashtag, when all four strategies collect
zero records and the job infrastructure succeeds, the extraction returns an
empty post list without an error and the enclosing job completes (status
`completed`, no error message). -/
theorem hashtag_all_empty_completes (hashtag : String) (limit pageNum : Nat)
    (env : HashtagEnv) (o : HashtagSvcOracle) (tag : List Char)
    (hval : sanitizeHashtag hashtag = .ok tag)
    (h1 : scrapeWithPagination env.pag ((pageNum - 1) * limit + limit) = [])
    (h2 : scrapeViaLiveInterception env.live ((pageNum - 1) * limit + limit) = [])
    (h3 : scrapeViaDocIdGraphQL env.docId ((pageNum - 1) * limit + limit) = [])
    (h4 : scrapeViaWebInfoEndpoint env.webInfo ((pageNum - 1) * limit + limit) = [])
    (ho1 : o.acquireOk = true) (ho2 : o.createContextOk = true)
    (ho3 : o.createPageOk = true) :
    (svcScrapeHashtag hashtag limit pageNum env o).1.status = JobStatus.completed ∧
    (svcScrapeHashtag hashtag limit pageNum env o).1.error = none ∧
    (svcScrapeHashtag hashtag limit pageNum env o).2 = [] ∧
    (∃ r : EngineResult,
      scrapeHashtag hashtag env ((pageNum - 1) * limit + limit) = .ok r ∧
        r.posts = []) := by
  have hEng : scrapeHashtag hashtag env ((pageNum - 1) * limit + limit) =
      .ok (hashtagChain [] [] [] [] ((pageNum - 1) * limit + limit)) := by
    unfold scrapeHashtag
    rw [hval, h1, h2, h3, h4]
  have hsvc : svcScrapeHashtag hashtag limit pageNum env o =
      (applyUpdate (initialJob limit)
        ⟨some .completed, some 100, some 0, none, some 1⟩, []) := by
    unfold svcScrapeHashtag
    rw [if_neg (by rw [ho1]; simp), if_neg (by rw [ho2]; simp),
      if_neg (by rw [ho3]; simp), hEng]
    dsimp only
    rw [hashtagChain_empty]
    simp
  rw [hsvc]
  exact ⟨rfl, rfl, rfl, ⟨_, hEng, hashtagChain_empty _⟩⟩

/-- Witness for C7: the empty browser environment at limit 5, page 1. -/
theorem hashtag_all_empty_completes_witness :
    (svcScrapeHashtag "tag" 5 1 emptyHashtagEnv okSvcOracle).1.status =
        JobStatus.completed ∧
      (svcScrapeHashtag "tag" 5 1 emptyHashtagEnv okSvcOracle).1.error = none ∧
      (svcScrapeHashtag "tag" 5 1 emptyHashtagEnv okSvcOracle).2 = [] ∧
      (∃ r : EngineResult, scrapeHashtag "tag" emptyHashtagEnv ((1 - 1) * 5 + 5) = .ok r ∧
        r.posts = []) :=
  hashtag_all_empty_completes "tag" 5 1 emptyHashtagEnv okSvcOracle
    (String.toList "tag") (by rfl) (by rfl) (by rfl) (by rfl) (by rfl)
    rfl rfl rfl

/-! ## Job lifecycle lemmas (C8, C9) -/

/-- An update that does not set a terminal status keeps the job
non-terminal. -/
theorem applyUpdate_nonterm (j : Job) (u : JobUpdate)
    (hu : u.status = none ∨ u.status = some JobStatus.processing)
    (hj : j.status.isTerminal = false) :
    (applyUpdate j u).status.isTerminal = false := by
  unfold applyUpdate
  rcases hu with hu | hu <;> rw [hu]
  · exact hj
  · rfl

theorem nonTerminalUpdates_nil : NonTerminalUpdates [] := by
  intro u hu; cases hu

theorem nonTerminalUpdates_cons_act (l : List Step) (h : NonTerminalUpdates l) :
    NonTerminalUpdates (Step.act :: l) := by
  intro u hu
  rcases List.mem_cons.mp hu with hu | hu
  · cases hu
  · exact h u hu

theorem nonTerminalUpdates_cons_ctx (l : List Step) (h : NonTerminalUpdates l) :
    NonTerminalUpdates (Step.createCtx :: l) := by
  intro u hu
  rcases List.mem_cons.mp hu with hu | hu
  · cases hu
  · exact h u hu

theorem nonTerminalUpdates_cons_update (l : List Step) (u0 : JobUpdate)
    (hu0 : u0.status = none ∨ u0.status = some JobStatus.processing)
    (h : NonTerminalUpdates l) : NonTerminalUpdates (Step.update u0 :: l) := by
  intro u hu
  rcases List.mem_cons.mp hu with hu | hu
  · cases hu; exact hu0
  · exact h u hu

theorem nonTerminalUpdates_append (l1 l2 : List Step)
    (h1 : NonTerminalUpdates l1) (h2 : NonTerminalUpdates l2) :
    NonTerminalUpdates (l1 ++ l2) := by
  intro u hu
  rcases List.mem_append.mp hu with hu | hu
  · exact h1 u hu
  · exact h2 u hu

theorem nonTerminalUpdates_ite (c : Prop) [Decidable c] (l1 l2 : List Step)
    (h1 : NonTerminalUpdates l1) (h2 : NonTerminalUpdates l2) :
    NonTerminalUpdates (if c then l1 else l2) := by
  by_cases hc : c
  · rw [if_pos hc]; exact h1
  · rw [if_neg hc]; exact h2

theorem nonTerminalUpdates_flatMap {α : Type} (l : List α) (f : α → List Step)
    (h : ∀ a, NonTerminalUpdates (f a)) : NonTerminalUpdates (l.flatMap f) := by
  intro u hu
  obtain ⟨a, _, hmem⟩ := List.mem_flatMap.mp hu
  exact h a u hmem

/-- A trace whose every element but the last is non-terminal never leaves a
terminal state. -/
theorem frozen_of_dropLast_nonterm :
    ∀ tr : List Job, (∀ j ∈ tr.dropLast, j.status.isTerminal = false) →
      FrozenAfterTerminal tr := by
  intro tr
  induction tr with
  | nil => intro _; trivial
  | cons x l ih =>
    intro h
    match l with
    | [] => exact ⟨fun _ j2 hj2 => absurd hj2 (List.not_mem_nil _), trivial⟩
    | y :: l2 =>
      have hx : x.status.isTerminal = false := by
        apply h
        rw [List.dropLast_cons₂]
        exact List.mem_cons_self _ _
      refine ⟨fun hterm => ?_, ih ?_⟩
      · rw [hx] at hterm; cases hterm
      · intro j hj
        apply h
        rw [List.dropLast_cons₂]
        exact List.mem_cons_of_mem _ hj

/-- Trace structure of a body ending in its terminal update: when nothing
threw, the trace is a non-terminal prefix followed by the final state; when
something threw, the final update never ran and the whole trace is
non-terminal. -/
theorem runSteps_trace_structure (ctxId : String) (oracle : Nat → Bool)
    (ut : JobUpdate) :
    ∀ (init : List Step) (n : Nat) (j : Job) (b : List String),
      NonTerminalUpdates init → j.status.isTerminal = false →
      (((runSteps ctxId oracle (init ++ [Step.update ut]) n j b).2.2.2 = false →
        ∃ tr0 jf, (runSteps ctxId oracle (init ++ [Step.update ut]) n j b).2.2.1 =
            tr0 ++ [jf] ∧ ∀ j2 ∈ tr0, j2.status.isTerminal = false) ∧
      ((runSteps ctxId oracle (init ++ [Step.update ut]) n j b).2.2.2 = true →
        ∀ j2 ∈ (runSteps ctxId oracle (init ++ [Step.update ut]) n j b).2.2.1,
          j2.status.isTerminal = false)) := by
  intro init
  induction init with
  | nil =>
    intro n j b _ _
    constructor
    · intro _
      exact ⟨[], applyUpdate j ut, rfl, fun j2 hj2 => absurd hj2 (List.not_mem_nil _)⟩
    · intro habs
      simp [runSteps] at habs
  | cons s rest ih =>
    intro n j b hntu hj
    match s with
    | .update u =>
      have hu := hntu u (List.mem_cons_self _ _)
      have hj2 : (applyUpdate j u).status.isTerminal = false :=
        applyUpdate_nonterm j u hu hj
      have hrest : NonTerminalUpdates rest :=
        fun u2 hu2 => hntu u2 (List.mem_cons_of_mem _ hu2)
      obtain ⟨ih1, ih2⟩ := ih n (applyUpdate j u) b hrest hj2
      constructor
      · intro hf
        have hf2 : (runSteps ctxId oracle (rest ++ [Step.update ut]) n
            (applyUpdate j u) b).2.2.2 = false := hf
        obtain ⟨tr0, jf, he, hn⟩ := ih1 hf2
        refine ⟨applyUpdate j u :: tr0, jf, ?_, ?_⟩
        · show applyUpdate j u ::
            (runSteps ctxId oracle (rest ++ [Step.update ut]) n (applyUpdate j u) b).2.2.1 =
            (applyUpdate j u :: tr0) ++ [jf]
          rw [he]
          rfl
        · intro j2 hj2m
          rcases List.mem_cons.mp hj2m with hj2m | hj2m
          · subst hj2m; exact hj2
          · exact hn j2 hj2m
      · intro ht j2 hj2m
        have hj2mem : j2 ∈ applyUpdate j u ::
            (runSteps ctxId oracle (rest ++ [Step.update ut]) n (applyUpdate j u) b).2.2.1 :=
          hj2m
        rcases List.mem_cons.mp hj2mem with he2 | he2
        · subst he2; exact hj2
        · exact ih2 ht j2 he2
    | .act =>
      have hrest : NonTerminalUpdates rest :=
        fun u2 hu2 => hntu u2 (List.mem_cons_of_mem _ hu2)
      by_cases ho : oracle n
      · have heq : runSteps ctxId oracle (Step.act :: rest ++ [Step.update ut]) n j b =
            (j, b, [], true) := by
          rw [show runSteps ctxId oracle (Step.act :: rest ++ [Step.update ut]) n j b =
            if oracle n = true then (j, b, [], true)
            else runSteps ctxId oracle (rest ++ [Step.update ut]) (n + 1) j b from rfl]
          rw [if_pos ho]
        rw [heq]
        exact ⟨(fun hf => nomatch hf), fun _ j2 hj2m => absurd hj2m (List.not_mem_nil _)⟩
      · have heq : runSteps ctxId oracle (Step.act :: rest ++ [Step.update ut]) n j b =
            runSteps ctxId oracle (rest ++ [Step.update ut]) (n + 1) j b := by
          rw [show runSteps ctxId oracle (Step.act :: rest ++ [Step.update ut]) n j b =
            if oracle n = true then (j, b, [], true)
            else runSteps ctxId oracle (rest ++ [Step.update ut]) (n + 1) j b from rfl]
          rw [if_neg ho]
        rw [heq]
        exact ih (n + 1) j b hrest hj
    | .createCtx =>
      have hrest : NonTerminalUpdates rest :=
        fun u2 hu2 => hntu u2 (List.mem_cons_of_mem _ hu2)
      by_cases ho : oracle n
      · have heq : runSteps ctxId oracle (Step.createCtx :: rest ++ [Step.update ut]) n j b =
            (j, b, [], true) := by
          rw [show runSteps ctxId oracle (Step.createCtx :: rest ++ [Step.update ut]) n j b =
            if oracle n = true then (j, b, [], true)
            else runSteps ctxId oracle (rest ++ [Step.update ut]) (n + 1) j
              (if b.contains ctxId then b else b ++ [ctxId]) from rfl]
          rw [if_pos ho]
        rw [heq]
        exact ⟨(fun hf => nomatch hf), fun _ j2 hj2m => absurd hj2m (List.not_mem_nil _)⟩
      · have heq : runSteps ctxId oracle (Step.createCtx :: rest ++ [Step.update ut]) n j b =
            runSteps ctxId oracle (rest ++ [Step.update ut]) (n + 1) j
              (if b.contains ctxId then b else b ++ [ctxId]) := by
          rw [show runSteps ctxId oracle (Step.createCtx :: rest ++ [Step.update ut]) n j b =
            if oracle n = true then (j, b, [], true)
            else runSteps ctxId oracle (rest ++ [Step.update ut]) (n + 1) j
              (if b.contains ctxId then b else b ++ [ctxId]) from rfl]
          rw [if_neg ho]
        rw [heq]
        exact ih (n + 1) j _ hrest hj

/-- The trace a flow run produces, written out through the projections of the
underlying step run. -/
theorem runFlow_trace (f : Flow) (oracle : Nat → Bool) (closeFails : Bool)
    (b0 : List String) :
    (runFlow f oracle closeFails b0).trace =
      f.initJob ::
        (if (runSteps f.ctxId oracle f.body 0 f.initJob b0).2.2.2 = true then
          (runSteps f.ctxId oracle f.body 0 f.initJob b0).2.2.1 ++
            [if (runSteps f.ctxId oracle f.body 0 f.initJob b0).2.2.2 = true then
              applyUpdate (runSteps f.ctxId oracle f.body 0 f.initJob b0).1 f.catchUpdate
            else (runSteps f.ctxId oracle f.body 0 f.initJob b0).1]
        else (runSteps f.ctxId oracle f.body 0 f.initJob b0).2.2.1) := rfl

/-- Any flow whose body is a run of non-terminal updates followed by one final
update produces a trace that never steps away from a terminal state. -/
theorem runFlow_frozen (f : Flow) (oracle : Nat → Bool) (closeFails : Bool)
    (b0 : List String) (init : List Step) (ut : JobUpdate)
    (hbody : f.body = init ++ [Step.update ut])
    (hinit : NonTerminalUpdates init)
    (hj0 : f.initJob.status.isTerminal = false) :
    FrozenAfterTerminal (runFlow f oracle closeFails b0).trace := by
  have hstruct := runSteps_trace_structure f.ctxId oracle ut init 0 f.initJob b0 hinit hj0
  rw [← hbody] at hstruct
  obtain ⟨h1, h2⟩ := hstruct
  rw [runFlow_trace]
  by_cases hthr : (runSteps f.ctxId oracle f.body 0 f.initJob b0).2.2.2 = true
  · rw [if_pos hthr, if_pos hthr]
    apply frozen_of_dropLast_nonterm
    intro j hj
    rw [show (f.initJob :: ((runSteps f.ctxId oracle f.body 0 f.initJob b0).2.2.1 ++
        [applyUpdate (runSteps f.ctxId oracle f.body 0 f.initJob b0).1 f.catchUpdate])) =
        (f.initJob :: (runSteps f.ctxId oracle f.body 0 f.initJob b0).2.2.1) ++
        [applyUpdate (runSteps f.ctxId oracle f.body 0 f.initJob b0).1 f.catchUpdate]
      from rfl] at hj
    rw [List.dropLast_concat] at hj
    rcases List.mem_cons.mp hj with hj | hj
    · rw [hj]; exact hj0
    · exact h2 hthr j hj
  · rw [if_neg hthr]
    have hf : (runSteps f.ctxId oracle f.body 0 f.initJob b0).2.2.2 = false :=
      Bool.eq_false_iff.mpr hthr
    obtain ⟨tr0, jf, he, hn⟩ := h1 hf
    rw [he]
    apply frozen_of_dropLast_nonterm
    intro j hj
    rw [show f.initJob :: (tr0 ++ [jf]) = (f.initJob :: tr0) ++ [jf] from rfl] at hj
    rw [List.dropLast_concat] at hj
    rcases List.mem_cons.mp hj with hj | hj
    · rw [hj]; exact hj0
    · exact hn j hj

/-- C8: For every operation flow (profile, hashtag, post, comments, reels,
search, direct URLs), every failure oracle and every starting browser
registry, the job-state trace the flow produces never leaves a terminal
state: once a trace entry is terminal (completed or failed), every later
entry is that same record, so status never regresses and the record is
immutable once terminal. -/
theorem job_terminal_state_frozen (oracle : Nat → Bool) (closeFails : Bool)
    (b0 : List String) :
    (∀ pl ip fp k msg, FrozenAfterTerminal
        (runFlow (profileFlow pl ip fp k msg) oracle closeFails b0).trace) ∧
    (∀ limit k msg, FrozenAfterTerminal
        (runFlow (hashtagFlow limit k msg) oracle closeFails b0).trace) ∧
    (∀ wc c msg, FrozenAfterTerminal
        (runFlow (postFlow wc c msg) oracle closeFails b0).trace) ∧
    (∀ limit k msg, FrozenAfterTerminal
        (runFlow (commentsFlow limit k msg) oracle closeFails b0).trace) ∧
    (∀ limit n wd msg, FrozenAfterTerminal
        (runFlow (reelsFlow limit n wd msg) oracle closeFails b0).trace) ∧
    (∀ rl hc ts p2 p3 fl msg, FrozenAfterTerminal
        (runFlow (searchFlow rl hc ts p2 p3 fl msg) oracle closeFails b0).trace) ∧
    (∀ m uo r msg, FrozenAfterTerminal
        (runFlow (directUrlsFlow m uo r msg) oracle closeFails b0).trace) := by
  refine ⟨?_, ?_, ?_, ?_, ?_, ?_, ?_⟩
  · intro pl ip fp k msg
    refine runFlow_frozen _ oracle closeFails b0
      ([.act, .createCtx, .act, .act, .update ⟨none, some 10, some 1, none, none⟩] ++
        (if fp then [.act, .act, .update ⟨none, some 100, some (1 + k), none, none⟩]
         else []))
      ⟨some .completed, none, none, none, some 1⟩ ?_ ?_ rfl
    · rfl
    refine nonTerminalUpdates_append _ _ ?_ ?_
    · exact nonTerminalUpdates_cons_act _ (nonTerminalUpdates_cons_ctx _
        (nonTerminalUpdates_cons_act _ (nonTerminalUpdates_cons_act _
          (nonTerminalUpdates_cons_update _ _ (Or.inl rfl) nonTerminalUpdates_nil))))
    · refine nonTerminalUpdates_ite _ _ _ ?_ nonTerminalUpdates_nil
      exact nonTerminalUpdates_cons_act _ (nonTerminalUpdates_cons_act _
        (nonTerminalUpdates_cons_update _ _ (Or.inl rfl) nonTerminalUpdates_nil))
  · intro limit k msg
    refine runFlow_frozen _ oracle closeFails b0 [.act, .createCtx, .act, .act]
      ⟨some .completed, some 100, some k, none, some 1⟩ ?_ ?_ rfl
    · rfl
    exact nonTerminalUpdates_cons_act _ (nonTerminalUpdates_cons_ctx _
      (nonTerminalUpdates_cons_act _ (nonTerminalUpdates_cons_act _
        nonTerminalUpdates_nil)))
  · intro wc c msg
    refine runFlow_frozen _ oracle closeFails b0
      ([.act, .createCtx, .act, .act, .update ⟨none, some 50, some 1, none, none⟩] ++
        (if wc then [.act, .act] else []))
      ⟨some .completed, some 100, some (1 + c), none, some 1⟩ ?_ ?_ rfl
    · rfl
    refine nonTerminalUpdates_append _ _ ?_ ?_
    · exact nonTerminalUpdates_cons_act _ (nonTerminalUpdates_cons_ctx _
        (nonTerminalUpdates_cons_act _ (nonTerminalUpdates_cons_act _
          (nonTerminalUpdates_cons_update _ _ (Or.inl rfl) nonTerminalUpdates_nil))))
    · refine nonTerminalUpdates_ite _ _ _ ?_ nonTerminalUpdates_nil
      exact nonTerminalUpdates_cons_act _ (nonTerminalUpdates_cons_act _
        nonTerminalUpdates_nil)
  · intro limit k msg
    refine runFlow_frozen _ oracle closeFails b0 [.act, .createCtx, .act, .act]
      ⟨some .completed, some 100, some k, none, some 1⟩ ?_ ?_ rfl
    · rfl
    exact nonTerminalUpdates_cons_act _ (nonTerminalUpdates_cons_ctx _
      (nonTerminalUpdates_cons_act _ (nonTerminalUpdates_cons_act _
        nonTerminalUpdates_nil)))
  · intro limit n wd msg
    refine runFlow_frozen _ oracle closeFails b0
      ([.act, .createCtx, .act, .act] ++
        (if wd then
          (List.range n).flatMap
            (fun i =>
              [.act, .act,
                .update ⟨none, some (roundDiv ((i + 1) * 100) n), some (i + 1),
                  none, none⟩])
         else []))
      ⟨some .completed, some 100, some n, none, some 1⟩ ?_ ?_ rfl
    · rfl
    refine nonTerminalUpdates_append _ _ ?_ ?_
    · exact nonTerminalUpdates_cons_act _ (nonTerminalUpdates_cons_ctx _
        (nonTerminalUpdates_cons_act _ (nonTerminalUpdates_cons_act _
          nonTerminalUpdates_nil)))
    · refine nonTerminalUpdates_ite _ _ _ ?_ nonTerminalUpdates_nil
      refine nonTerminalUpdates_flatMap _ _ ?_
      intro i
      exact nonTerminalUpdates_cons_act _ (nonTerminalUpdates_cons_act _
        (nonTerminalUpdates_cons_update _ _ (Or.inl rfl) nonTerminalUpdates_nil))
  · intro rl hc ts p2 p3 fl msg
    refine runFlow_frozen _ oracle closeFails b0
      ([.act, .createCtx, .act] ++ (if hc then [.act] else []) ++
        (ts.flatMap
          (fun t =>
            [.act] ++
              (if t.1 then
                [.update ⟨none, some (roundDiv (t.2 * 50) rl), some t.2, none, none⟩]
              else []))) ++
        (if p2 then [.act] else []) ++ (if p3 then [.act] else []))
      ⟨some .completed, some 100, some fl, none, some 1⟩ ?_ ?_ rfl
    · rfl
    refine nonTerminalUpdates_append _ _ ?_
      (nonTerminalUpdates_ite _ _ _
        (nonTerminalUpdates_cons_act _ nonTerminalUpdates_nil) nonTerminalUpdates_nil)
    refine nonTerminalUpdates_append _ _ ?_
      (nonTerminalUpdates_ite _ _ _
        (nonTerminalUpdates_cons_act _ nonTerminalUpdates_nil) nonTerminalUpdates_nil)
    refine nonTerminalUpdates_append _ _ ?_ ?_
    · refine nonTerminalUpdates_append _ _ ?_
        (nonTerminalUpdates_ite _ _ _
          (nonTerminalUpdates_cons_act _ nonTerminalUpdates_nil) nonTerminalUpdates_nil)
      exact nonTerminalUpdates_cons_act _ (nonTerminalUpdates_cons_ctx _
        (nonTerminalUpdates_cons_act _ nonTerminalUpdates_nil))
    · refine nonTerminalUpdates_flatMap _ _ ?_
      intro t
      refine nonTerminalUpdates_append _ _
        (nonTerminalUpdates_cons_act _ nonTerminalUpdates_nil) ?_
      exact nonTerminalUpdates_ite _ _ _
        (nonTerminalUpdates_cons_update _ _ (Or.inl rfl) nonTerminalUpdates_nil)
        nonTerminalUpdates_nil
  · intro m uo r msg
    refine runFlow_frozen _ oracle closeFails b0
      ([.createCtx, .act] ++
        ((List.range m).flatMap
          (fun i =>
            [.act] ++
              (if uo i then
                [.update ⟨none, some (roundDiv ((i + 1) * 100) m), some (i + 1),
                  none, none⟩]
              else []))))
      ⟨some .completed, some 100, some r, none, some 1⟩ ?_ ?_ rfl
    · rfl
    refine nonTerminalUpdates_append _ _ ?_ ?_
    · exact nonTerminalUpdates_cons_ctx _ (nonTerminalUpdates_cons_act _
        nonTerminalUpdates_nil)
    · refine nonTerminalUpdates_flatMap _ _ ?_
      intro i
      refine nonTerminalUpdates_append _ _
        (nonTerminalUpdates_cons_act _ nonTerminalUpdates_nil) ?_
      exact nonTerminalUpdates_ite _ _ _
        (nonTerminalUpdates_cons_update _ _ (Or.inl rfl) nonTerminalUpdates_nil)
        nonTerminalUpdates_nil

/-- The browser-context registry after a step run is either unchanged or has
exactly the flow's context id appended (when it was not registered before). -/
theorem runSteps_browser (ctxId : String) (oracle : Nat → Bool) :
    ∀ (steps : List Step) (n : Nat) (j : Job) (b : List String),
      (runSteps ctxId oracle steps n j b).2.1 = b ∨
      ((runSteps ctxId oracle steps n j b).2.1 = b ++ [ctxId] ∧ ctxId ∉ b) := by
  intro steps
  induction steps with
  | nil => intro n j b; exact Or.inl rfl
  | cons s rest ih =>
    intro n j b
    match s with
    | .update u =>
      have hred : (runSteps ctxId oracle (Step.update u :: rest) n j b).2.1 =
          (runSteps ctxId oracle rest n (applyUpdate j u) b).2.1 := rfl
      rw [hred]
      exact ih n (applyUpdate j u) b
    | .act =>
      by_cases ho : oracle n = true
      · have heq : runSteps ctxId oracle (Step.act :: rest) n j b = (j, b, [], true) := by
          rw [show runSteps ctxId oracle (Step.act :: rest) n j b =
            if oracle n = true then (j, b, [], true)
            else runSteps ctxId oracle rest (n + 1) j b from rfl]
          rw [if_pos ho]
        rw [heq]
        exact Or.inl rfl
      · have heq : runSteps ctxId oracle (Step.act :: rest) n j b =
            runSteps ctxId oracle rest (n + 1) j b := by
          rw [show runSteps ctxId oracle (Step.act :: rest) n j b =
            if oracle n = true then (j, b, [], true)
            else runSteps ctxId oracle rest (n + 1) j b from rfl]
          rw [if_neg ho]
        rw [heq]
        exact ih (n + 1) j b
    | .createCtx =>
      by_cases ho : oracle n = true
      · have heq : runSteps ctxId oracle (Step.createCtx :: rest) n j b =
            (j, b, [], true) := by
          rw [show runSteps ctxId oracle (Step.createCtx :: rest) n j b =
            if oracle n = true then (j, b, [], true)
            else runSteps ctxId oracle rest (n + 1) j
              (if b.contains ctxId then b else b ++ [ctxId]) from rfl]
          rw [if_pos ho]
        rw [heq]
        exact Or.inl rfl
      · have heq : runSteps ctxId oracle (Step.createCtx :: rest) n j b =
            runSteps ctxId oracle rest (n + 1) j
              (if b.contains ctxId then b else b ++ [ctxId]) := by
          rw [show runSteps ctxId oracle (Step.createCtx :: rest) n j b =
            if oracle n = true then (j, b, [], true)
            else runSteps ctxId oracle rest (n + 1) j
              (if b.contains ctxId then b else b ++ [ctxId]) from rfl]
          rw [if_neg ho]
        rw [heq]
        by_cases hc : b.contains ctxId = true
        · rw [if_pos hc]
          exact ih (n + 1) j b
        · rw [if_neg hc]
          have hnotin : ctxId ∉ b := by
            intro hmem
            exact hc (List.elem_iff.mpr hmem)
          rcases ih (n + 1) j (b ++ [ctxId]) with h | ⟨_, habs⟩
          · exact Or.inr ⟨h, hnotin⟩
          · exact absurd (List.mem_append_right b (List.mem_singleton.mpr rfl)) habs

/-- With a working `context.close()`, a whole flow run (success or throw)
restores the browser-context registry it started from, provided the job's
context id is fresh. -/
theorem runFlow_browser (f : Flow) (oracle : Nat → Bool) (b0 : List String)
    (h : f.ctxId ∉ b0) : (runFlow f oracle false b0).browser = b0 := by
  have hb : (runFlow f oracle false b0).browser =
      (match closeContext false (runSteps f.ctxId oracle f.body 0 f.initJob b0).2.1
          f.ctxId with
        | .ok nb => nb
        | .error _ => (runSteps f.ctxId oracle f.body 0 f.initJob b0).2.1) := rfl
  rw [hb]
  rcases runSteps_browser f.ctxId oracle f.body 0 f.initJob b0 with h1 | ⟨h1, hnot⟩
  · rw [h1]
    simp [closeContext, h]
  · rw [h1]
    have hc : (b0 ++ [f.ctxId]).contains f.ctxId = true :=
      List.elem_iff.mpr (List.mem_append_right _ (List.mem_singleton.mpr rfl))
    simp only [closeContext, hc, if_true, if_false, Bool.false_eq_true]
    rw [List.erase_append_right _ hnot, List.erase_cons_head, List.append_nil]

/-- C9: For every top-level scrape operation (profile, hashtag, post,
comments, reels, search, direct URLs) and every outcome (success or throw at
any step), the context created for the job is closed by the `finally` block
before the operation returns: starting from any registry that does not
already hold the job's context id, the registry after the run equals the
registry before it, so the active-context count is unchanged. -/
theorem context_closed_on_every_path (oracle : Nat → Bool) (b0 : List String) :
    (∀ pl ip fp k msg, "profile_job" ∉ b0 →
      (runFlow (profileFlow pl ip fp k msg) oracle false b0).browser = b0) ∧
    (∀ limit k msg, "hashtag_job" ∉ b0 →
      (runFlow (hashtagFlow limit k msg) oracle false b0).browser = b0) ∧
    (∀ wc c msg, "post_job" ∉ b0 →
      (runFlow (postFlow wc c msg) oracle false b0).browser = b0) ∧
    (∀ limit k msg, "comments_job" ∉ b0 →
      (runFlow (commentsFlow limit k msg) oracle false b0).browser = b0) ∧
    (∀ limit n wd msg, "reels_job" ∉ b0 →
      (runFlow (reelsFlow limit n wd msg) oracle false b0).browser = b0) ∧
    (∀ rl hc ts p2 p3 fl msg, "search_job" ∉ b0 →
      (runFlow (searchFlow rl hc ts p2 p3 fl msg) oracle false b0).browser = b0) ∧
    (∀ m uo r msg, "urls_job" ∉ b0 →
      (runFlow (directUrlsFlow m uo r msg) oracle false b0).browser = b0) := by
  refine ⟨?_, ?_, ?_, ?_, ?_, ?_, ?_⟩
  · intro pl ip fp k msg h
    exact runFlow_browser _ oracle b0 h
  · intro limit k msg h
    exact runFlow_browser _ oracle b0 h
  · intro wc c msg h
    exact runFlow_browser _ oracle b0 h
  · intro limit k msg h
    exact runFlow_browser _ oracle b0 h
  · intro limit n wd msg h
    exact runFlow_browser _ oracle b0 h
  · intro rl hc ts p2 p3 fl msg h
    exact runFlow_browser _ oracle b0 h
  · intro m uo r msg h
    exact runFlow_browser _ oracle b0 h
